import Mathlib

/-!
Verification of the chunk streaming/scheduling subsystem of the WorldClient
repository (`src/chunks/ChunkManager.ts`), against its natural-language
specification.

The embedding models the `ChunkManager` class state as a record of
association lists mirroring the JS `Map`/`Set`/array fields, and each method
as a pure state transformer.  JavaScript is single threaded: every
synchronous run-to-completion block (an `update()` tick, a `destroy()` call,
the continuation of `loadChunk` that runs when its awaited fetch settles) is
one atomic step.  The asynchronous fetch issued by `loadChunk` is modelled
explicitly: the synchronous prefix of `loadChunk` (up to the `await`) appends
a `Fetch` record to `inFlight`; a separate transition picks a pending fetch
and an outcome and runs the rest of `loadChunk` (the `try`/`catch`/`finally`
continuation).  `AbortController`s are modelled by numeric ids plus a set of
ids on which `abort()` was called; a fetch whose controller was not aborted
never settles with an `AbortError`, while an aborted fetch may settle either
with `AbortError` or with the outcome it had already reached when `abort()`
arrived.

Chunk keys are the strings `"x,z"` in the source (`getChunkKey`), which are
in bijection with integer pairs; we use `Int × Int` directly.  Times are
`Nat` milliseconds (readings of `Date.now()`).  Meshes are modelled by an
identity and the resolution their geometry was built with
(`PlaneGeometry(_, _, resolution, resolution)` in `TerrainMeshBuilder`, so
`getMeshResolution` returns exactly the resolution the chunk was built at).
-/

namespace WorldClient

/-- Chunk key: the source uses the string `"chunkX,chunkZ"` (`getChunkKey`),
injective in the integer pair, so we use the pair itself. -/
abbrev Key := Int × Int

/-! ### Association-list maps and lists-as-sets with JS `Map`/`Set` semantics
(`set` on an existing key updates in place, a new key is appended at the end;
`delete` removes the key; iteration follows insertion order). -/

/-- `Map.get k` -/
def mget (k : Key) : List (Key × β) → Option β
  | [] => none
  | (a, b) :: t => if a = k then some b else mget k t

/-- `Map.set k v` -/
def mset (k : Key) (v : β) : List (Key × β) → List (Key × β)
  | [] => [(k, v)]
  | (a, b) :: t => if a = k then (k, v) :: t else (a, b) :: mset k v t

/-- `Map.delete k` -/
def mdel (k : Key) : List (Key × β) → List (Key × β)
  | [] => []
  | (a, b) :: t => if a = k then mdel k t else (a, b) :: mdel k t

/-- `Set.add k` -/
def sadd (k : Key) (l : List Key) : List Key :=
  if k ∈ l then l else l ++ [k]

/-- `Set.delete k` -/
def sdel (k : Key) : List Key → List Key
  | [] => []
  | a :: t => if a = k then sdel k t else a :: sdel k t

/-- The guard `time !== undefined && now < time` used by the cooldown and
pending-retry checks (lines 222, 258, 441, 445). -/
def timeActive (now : Nat) : Option Nat → Bool
  | some t => now < t
  | none => false

/-! ### Constants (ChunkManager.ts lines 5-10) -/

def CHUNK_SIZE : Nat := 100
def LOAD_RADIUS : Nat := 10
def UNLOAD_RADIUS : Nat := 12
def MAX_CONCURRENT_LOADS : Nat := 20
def RETRY_DELAY_MS : Nat := 750
def FAILED_CHUNK_COOLDOWN_MS : Nat := 5000

/-- An entry of the `loadQueue` array (line 32). -/
structure QItem where
  chunkX : Int
  chunkZ : Int
  distanceSquared : Int
  res : Nat
  deriving DecidableEq, Repr

/-- A built terrain mesh: identity plus the resolution its geometry carries
(`geometry.parameters.widthSegments`, read back by `getMeshResolution`). -/
structure Mb where
  id : Nat
  res : Nat
  deriving DecidableEq, Repr

/-- An in-flight `TerrainChunkLoader.fetchChunkOnce` call: requested chunk,
requested resolution, and the id of the `AbortController` passed to it. -/
structure Fetch where
  key : Key
  res : Nat
  ctrl : Nat
  deriving DecidableEq, Repr

/-- The mutable fields of `ChunkManager` (lines 25-47) plus the explicit
asynchronous context: `inFlight` are the pending `fetchChunkOnce` promises,
`aborted` the ids of controllers on which `abort()` was called, and
`nextCtrl`/`nextMeshId` freshness counters.  `scene` is the set of meshes
currently added to the THREE scene. -/
structure MState where
  loadedChunks : List (Key × Mb) := []
  loadingChunks : List Key := []
  loadQueue : List QItem := []
  pendingRetryChunks : List (Key × Nat) := []
  failedChunks : List (Key × Nat) := []
  blacklistedChunks : List Key := []
  abortControllers : List (Key × Nat) := []
  loadingResolutions : List (Key × Nat) := []
  inFlight : List Fetch := []
  aborted : List Nat := []
  nextCtrl : Nat := 0
  nextMeshId : Nat := 0
  scene : List Mb := []
  deriving DecidableEq, Repr

/-- Freshly constructed manager. -/
def initState : MState := {}

/-- `getLoadingCount()` (line 492). -/
def getLoadingCount (s : MState) : Nat := s.loadingChunks.length

/-- `getLoadQueueSize()` (line 488). -/
def getLoadQueueSize (s : MState) : Nat := s.loadQueue.length

/-- `calculateChunkDistance` (lines 121-130): squared chunk-grid distance. -/
def calculateChunkDistance (cameraChunkX cameraChunkZ targetChunkX targetChunkZ : Int) : Int :=
  (targetChunkX - cameraChunkX) * (targetChunkX - cameraChunkX) +
    (targetChunkZ - cameraChunkZ) * (targetChunkZ - cameraChunkZ)

/-- The resolution of the resident mesh for a key, if any
(`getMeshResolution` applied to `loadedChunks.get(key)`, lines 155-158). -/
def meshResolution (s : MState) (k : Key) : Option Nat :=
  (mget k s.loadedChunks).map Mb.res

/-- Removes the first queue entry for the given chunk, returning it
(the `findIndex` + `splice(existingIndex, 1)` of lines 176-185). -/
def removeQueued (x z : Int) : List QItem → List QItem × Option QItem
  | [] => ([], none)
  | it :: t =>
    if it.chunkX = x ∧ it.chunkZ = z then (t, some it)
    else (it :: (removeQueued x z t).1, (removeQueued x z t).2)

/-- Insert before the first entry with strictly larger `distanceSquared`
(the `findIndex` + `splice(insertIdx, 0, …)` / `push` of lines 187-196);
ties keep FIFO order because insertion goes after existing equals. -/
def insertByDistance (it : QItem) : List QItem → List QItem
  | [] => [it]
  | h :: t =>
    if it.distanceSquared < h.distanceSquared then it :: h :: t
    else h :: insertByDistance it t

/-- `enqueueChunkLoad` (lines 160-197). -/
def enqueueChunkLoad (chunkX chunkZ cameraChunkX cameraChunkZ : Int) (res : Nat)
    (q : List QItem) : List QItem :=
  let distanceSquared := calculateChunkDistance cameraChunkX cameraChunkZ chunkX chunkZ
  match (removeQueued chunkX chunkZ q).2 with
  | some ex =>
    if ex.res = res ∧ ex.distanceSquared = distanceSquared then q
    else insertByDistance ⟨chunkX, chunkZ, distanceSquared, res⟩ (removeQueued chunkX chunkZ q).1
  | none => insertByDistance ⟨chunkX, chunkZ, distanceSquared, res⟩ q

/-- The synchronous prefix of `loadChunk` (lines 240-282), up to and
including issuing the fetch at the `await`.  `now` is the `Date.now()`
reading used by the cooldown guard on line 258. -/
def loadChunkStart (chunkX chunkZ : Int) (res : Nat) (now : Nat) (s : MState) : MState :=
  let key : Key := (chunkX, chunkZ)
  if key ∈ s.blacklistedChunks then s
  else if meshResolution s key = some res then s
  else if key ∈ s.loadingChunks ∧ mget key s.loadingResolutions = some res then s
  else if timeActive now (mget key s.failedChunks) then s
  else
    { s with
      loadingChunks := sadd key s.loadingChunks
      failedChunks := mdel key s.failedChunks
      pendingRetryChunks := mdel key s.pendingRetryChunks
      abortControllers := mset key s.nextCtrl s.abortControllers
      loadingResolutions := mset key res s.loadingResolutions
      inFlight := s.inFlight ++ [⟨key, res, s.nextCtrl⟩]
      nextCtrl := s.nextCtrl + 1 }

/-- One iteration of the `while` loop of `processLoadQueue` (lines 202-230):
`none` when the loop guard fails (the pass is over), otherwise the state
after `shift`ing the head entry and either skipping it, pushing it back to
the tail (unexpired cooldown), or starting its load. -/
def plqStep (now : Nat) (s : MState) : Option MState :=
  if s.loadingChunks.length < MAX_CONCURRENT_LOADS ∧ s.loadQueue ≠ [] then
    match s.loadQueue with
    | [] => none
    | item :: rest =>
      let s1 := { s with loadQueue := rest }
      let key : Key := (item.chunkX, item.chunkZ)
      -- skip if already loaded, blacklisted, or currently loading (lines 211-218)
      if key ∈ s1.blacklistedChunks ∨ mget key s1.loadingResolutions = some item.res ∨
          meshResolution s1 key = some item.res then
        some s1
      -- skip if failed with active cooldown: re-enqueue at the tail (lines 220-226)
      else if timeActive now (mget key s1.failedChunks) then
        some { s1 with loadQueue := rest ++ [item] }
      else
        some (loadChunkStart item.chunkX item.chunkZ item.res now s1)
  else none

/-- `processLoadQueue` (lines 200-231).  The `while` loop is driven by
explicit fuel; fuel `0` returns the mid-loop state unchanged, so every
prefix of the loop's execution is denoted by some fuel value.  (With the
fixed `Date.now()` reading `now`, the loop need not terminate: a queue
whose entries are all under an unexpired cooldown is shifted and pushed
back forever; see the theorem for claim C5.) -/
def processLoadQueue (now : Nat) : Nat → MState → MState
  | 0, s => s
  | fuel + 1, s => (plqStep now s).elim s (processLoadQueue now fuel)

/-- Outcome with which a pending `fetchChunkOnce` promise settles, as
classified by `loadChunk`'s handlers (lines 284-344): decoded data whose
mesh build succeeds or throws, a 202 `null`, an `AbortError`, a decode
`Buffer size mismatch` error, or any other (network) error. -/
inductive FetchOutcome where
  | dataOk
  | dataBuildFail
  | notReady
  | abortErr
  | decodeErr
  | netErr
  deriving DecidableEq, Repr

/-- The `finally` block of `loadChunk` (lines 345-351). -/
def loadChunkFinally (key : Key) (now fuel : Nat) (s : MState) : MState :=
  processLoadQueue now fuel
    { s with
      loadingChunks := sdel key s.loadingChunks
      loadingResolutions := mdel key s.loadingResolutions
      abortControllers := mdel key s.abortControllers }

/-- The continuation of `loadChunk` that runs when the awaited fetch `f`
settles with outcome `o` (the `try`/`catch` bodies of lines 275-344 followed
by the `finally` of lines 345-351).  The settled promise is removed from the
pending set; all map updates are keyed by `f.key` exactly as the source
keys them by `key`. -/
def loadChunkComplete (f : Fetch) (o : FetchOutcome) (now fuel : Nat) (s : MState) : MState :=
  let key := f.key
  let s := { s with inFlight := s.inFlight.erase f }
  match o with
  | .notReady =>
    -- 202: schedule retry, release this load, drain the queue (lines 285-293),
    -- then the `finally` still runs on `return`
    let s := { s with
      pendingRetryChunks := mset key (now + RETRY_DELAY_MS) s.pendingRetryChunks
      loadingChunks := sdel key s.loadingChunks
      abortControllers := mdel key s.abortControllers }
    loadChunkFinally key now fuel (processLoadQueue now fuel s)
  | .dataOk =>
    -- double-check the chunk wasn't unloaded while waiting (lines 296-301)
    if key ∉ s.loadingChunks then
      let s := { s with
        loadingChunks := sdel key s.loadingChunks
        abortControllers := mdel key s.abortControllers }
      loadChunkFinally key now fuel (processLoadQueue now fuel s)
    else
      -- mesh built: swap out the old mesh, install the new one (lines 304-323)
      let newMesh : Mb := ⟨s.nextMeshId, f.res⟩
      let s := match mget key s.loadedChunks with
        | some old => { s with scene := s.scene.erase old }
        | none => s
      loadChunkFinally key now fuel
        { s with
          loadedChunks := mset key newMesh s.loadedChunks
          scene := s.scene ++ [newMesh]
          nextMeshId := s.nextMeshId + 1 }
  | .dataBuildFail =>
    -- mesh build failed: permanently blacklist (lines 324-329); the
    -- unloaded-while-waiting check precedes the build (lines 296-301)
    if key ∉ s.loadingChunks then
      let s := { s with
        loadingChunks := sdel key s.loadingChunks
        abortControllers := mdel key s.abortControllers }
      loadChunkFinally key now fuel (processLoadQueue now fuel s)
    else
      loadChunkFinally key now fuel
        { s with blacklistedChunks := sadd key s.blacklistedChunks }
  | .abortErr =>
    -- silently ignore abort (lines 331-333)
    loadChunkFinally key now fuel s
  | .decodeErr =>
    -- decode/validation error: permanently blacklist (lines 334-338)
    loadChunkFinally key now fuel
      { s with blacklistedChunks := sadd key s.blacklistedChunks }
  | .netErr =>
    -- network/fetch error: set cooldown for retry (lines 339-343)
    loadChunkFinally key now fuel
      { s with failedChunks := mset key (now + FAILED_CHUNK_COOLDOWN_MS) s.failedChunks }

/-- `unloadChunk` (lines 354-394). -/
def unloadChunk (chunkX chunkZ : Int) (s : MState) : MState :=
  let key : Key := (chunkX, chunkZ)
  -- cancel any in-flight request (lines 358-362)
  let s := match mget key s.abortControllers with
    | some c => { s with aborted := s.aborted ++ [c], abortControllers := mdel key s.abortControllers }
    | none => s
  -- remove from all tracking maps (lines 365-369)
  let s := { s with
    loadingChunks := sdel key s.loadingChunks
    pendingRetryChunks := mdel key s.pendingRetryChunks
    failedChunks := mdel key s.failedChunks
    blacklistedChunks := sdel key s.blacklistedChunks
    loadingResolutions := mdel key s.loadingResolutions }
  -- get and remove the mesh (lines 372-393)
  match mget key s.loadedChunks with
  | none => s
  | some mesh =>
    { s with
      scene := s.scene.erase mesh
      loadedChunks := mdel key s.loadedChunks }

/-- Lines 418-426 of the per-cell body: abort an in-flight fetch that
targets a different resolution than desired.  `loadingRes` is the value
read on line 417. -/
def updateCellAbort (key : Key) (desiredRes : Nat) (loadingRes : Option Nat) (s : MState) :
    MState :=
  match loadingRes with
  | some r =>
    if r ≠ desiredRes then
      let s := match mget key s.abortControllers with
        | some c => { s with aborted := s.aborted ++ [c] }
        | none => s
      { s with
        loadingChunks := sdel key s.loadingChunks
        loadingResolutions := mdel key s.loadingResolutions
        abortControllers := mdel key s.abortControllers }
    else s
  | none => s

/-- Lines 428-448 of the per-cell body: the skip chain and the enqueue.
`loadingRes` is still the value read on line 417, before the abort stage. -/
def updateCellRest (cameraChunkX cameraChunkZ : Int) (now : Nat) (x z : Int)
    (desiredRes : Nat) (loadingRes : Option Nat) (s : MState) (enq : List Key) :
    MState × List Key :=
  let key : Key := (x, z)
  if key ∈ enq then (s, enq)
  else if key ∈ s.loadingChunks ∧ loadingRes = some desiredRes then (s, enq)
  else if meshResolution s key = some desiredRes then (s, enq)
  else if timeActive now (mget key s.failedChunks) then (s, enq)
  else if timeActive now (mget key s.pendingRetryChunks) then (s, enq)
  else
    ({ s with loadQueue := enqueueChunkLoad x z cameraChunkX cameraChunkZ desiredRes s.loadQueue },
      key :: enq)

/-- The body of the per-cell loop of `update` (lines 409-449) for one cell
`(x, z)`.  `desiredRes` is the value `selectResolution(distanceMeters)`
computed on lines 410-411 from the camera's floating-point position; every
claim under verification is independent of which resolution the LOD table
picks, so the per-cell desired resolution enters the model as data.  The
second component is the `enqueuedThisUpdate` set. -/
def updateCell (cameraChunkX cameraChunkZ : Int) (now : Nat) (x z : Int) (desiredRes : Nat)
    (p : MState × List Key) : MState × List Key :=
  let (s, enq) := p
  let key : Key := (x, z)
  -- skip if permanently blacklisted (line 414)
  if key ∈ s.blacklistedChunks then p
  else
    -- `loadingResolution` is read once (line 417) and reused on line 432
    let loadingRes := mget key s.loadingResolutions
    updateCellRest cameraChunkX cameraChunkZ now x z desiredRes loadingRes
      (updateCellAbort key desiredRes loadingRes s) enq

/-- `update` (lines 396-481).  `cells` lists the `(x, z, desiredResolution)`
triples the double loop over the load radius produces (lines 407-450): the
cells within `LOAD_RADIUS` of the camera chunk, each paired with the
resolution the LOD band table selects for its float center distance.
`retryRes` gives the `selectResolution` value for keys re-enqueued by the
pending-retry sweep (lines 453-463).  The unload sweep and the final queue
drain follow (lines 466-480). -/
def update (cells : List (Int × Int × Nat)) (retryRes : Key → Nat)
    (cameraChunkX cameraChunkZ : Int) (now fuel : Nat) (s : MState) : MState :=
  let p1 := cells.foldl
    (fun p c => updateCell cameraChunkX cameraChunkZ now c.1 c.2.1 c.2.2 p) (s, [])
  -- process pending retries that are now ready (lines 453-463); the sweep
  -- iterates the map in insertion order, deleting only the visited key
  let p2 := p1.1.pendingRetryChunks.foldl
    (fun (p : MState × List Key) kv =>
      let (st, enq) := p
      if now ≥ kv.2 ∧ kv.1 ∉ enq then
        ({ st with
            loadQueue := enqueueChunkLoad kv.1.1 kv.1.2 cameraChunkX cameraChunkZ
              (retryRes kv.1) st.loadQueue
            pendingRetryChunks := mdel kv.1 st.pendingRetryChunks },
          kv.1 :: enq)
      else p)
    p1
  -- unload chunks outside UNLOAD_RADIUS (lines 466-477)
  let toUnload := (p2.1.loadedChunks.filter
    (fun kv => decide ((kv.1.1 - cameraChunkX).natAbs > UNLOAD_RADIUS ∨
      (kv.1.2 - cameraChunkZ).natAbs > UNLOAD_RADIUS))).map Prod.fst
  let s3 := toUnload.foldl (fun st k => unloadChunk k.1 k.2 st) p2.1
  -- start processing the load queue (line 480)
  processLoadQueue now fuel s3

/-- `destroy` (lines 496-511). -/
def destroy (s : MState) : MState :=
  -- cancel all in-flight requests (lines 498-500)
  let s := { s with
    aborted := s.aborted ++ s.abortControllers.map Prod.snd
    abortControllers := []
    loadingResolutions := []
    loadQueue := [] }
  -- unload all loaded chunks (lines 506-510)
  (s.loadedChunks.map Prod.fst).foldl (fun st k => unloadChunk k.1 k.2 st) s

/-! ### The transition system

One step is one synchronous run-to-completion block of the manager: a full
`update()` tick, the settling of one pending fetch (running `loadChunk`'s
continuation), or a `destroy()` call.  A fetch whose controller was never
aborted cannot settle with `AbortError`; a fetch whose controller was
aborted may settle with `AbortError` or with the outcome its request had
already produced before the abort arrived. -/

inductive StepAt (now : Nat) : MState → MState → Prop where
  | tick (cells : List (Int × Int × Nat)) (retryRes : Key → Nat)
      (cameraChunkX cameraChunkZ : Int) (fuel : Nat) (s : MState) :
      StepAt now s (update cells retryRes cameraChunkX cameraChunkZ now fuel s)
  | settle (f : Fetch) (o : FetchOutcome) (fuel : Nat) (s : MState)
      (hf : f ∈ s.inFlight) (ho : f.ctrl ∉ s.aborted → o ≠ .abortErr) :
      StepAt now s (loadChunkComplete f o now fuel s)
  | teardown (s : MState) : StepAt now s (destroy s)

/-- A state of the manager reachable from construction. -/
def Reachable (s : MState) : Prop :=
  Relation.ReflTransGen (fun a b => ∃ now, StepAt now a b) initState s

/-- No fetch for key `k` was issued between `s` and `s'`. -/
def noNewFetchFor (k : Key) (s s' : MState) : Prop :=
  ∀ f : Fetch, f ∈ s'.inFlight → f.key = k → f ∈ s.inFlight

/-- Key `k` is barred from fetching at time `now`: blacklisted, or under an
unexpired network-failure cooldown. -/
def blockedKey (k : Key) (now : Nat) (s : MState) : Prop :=
  k ∈ s.blacklistedChunks ∨ timeActive now (mget k s.failedChunks) = true

/-- The keys of the load queue, in queue order. -/
def qKeys (q : List QItem) : List Key :=
  q.map fun it => (it.chunkX, it.chunkZ)

/-- A queue entry none of whose admission guards fire at time `now`: its key
is not blacklisted, nothing is loading for it, no mesh at this resolution is
resident, and no cooldown is active — the concurrency gate will start its
load when it reaches it. -/
def admissible (now : Nat) (s : MState) (it : QItem) : Prop :=
  ((it.chunkX, it.chunkZ) : Key) ∉ s.blacklistedChunks ∧
  ((it.chunkX, it.chunkZ) : Key) ∉ s.loadingChunks ∧
  mget (it.chunkX, it.chunkZ) s.loadingResolutions = none ∧
  meshResolution s (it.chunkX, it.chunkZ) ≠ some it.res ∧
  timeActive now (mget (it.chunkX, it.chunkZ) s.failedChunks) = false

/-! ### Concrete executions

Each trace below follows real browser semantics: `update()` ticks are
macrotasks, and an aborted fetch's rejection handler runs as a microtask
after the synchronous block that called `abort()` finishes.  The `cells`
argument of each tick lists the swept cells relevant to the keys under
scrutiny; the remaining cells of the 21×21 sweep concern other chunks and
are independent of them. -/

/-- Trace A: chunk `(1,0)` is fetched at resolution 128; the camera backs
off so the desired LOD drops to 64, which aborts the first fetch and starts
a replacement; the aborted fetch then settles with `AbortError`, and a later
tick re-requests the chunk. -/
def fA1 : Fetch := ⟨(1, 0), 128, 0⟩
def fA2 : Fetch := ⟨(1, 0), 64, 1⟩
def fA3 : Fetch := ⟨(1, 0), 64, 2⟩
def sA1 : MState := update [(1, 0, 128)] (fun _ => 128) 0 0 0 5 initState
def sA2 : MState := update [(1, 0, 64)] (fun _ => 64) 0 0 1 5 sA1
def sA3 : MState := loadChunkComplete fA1 .abortErr 2 5 sA2
def sA4 : MState := update [(1, 0, 64)] (fun _ => 64) 0 0 3 5 sA3

/-- Trace B: chunk `(1,0)` loads a 16-resolution mesh, the 64-resolution
upgrade fails to decode (blacklist), the camera moves to chunk `(20,0)`
(eviction), then returns. -/
def fB1 : Fetch := ⟨(1, 0), 16, 0⟩
def fB2 : Fetch := ⟨(1, 0), 64, 1⟩
def fB3 : Fetch := ⟨(1, 0), 64, 2⟩
def sB1 : MState := update [(1, 0, 16)] (fun _ => 16) 0 0 0 5 initState
def sB2 : MState := loadChunkComplete fB1 .dataOk 10 5 sB1
def sB3 : MState := update [(1, 0, 64)] (fun _ => 64) 0 0 20 5 sB2
def sB4 : MState := loadChunkComplete fB2 .decodeErr 30 5 sB3
def sB5 : MState := update [] (fun _ => 128) 20 0 40 5 sB4
def sB6 : MState := update [(1, 0, 64)] (fun _ => 64) 0 0 50 5 sB5

/-- Trace C: like trace B, but the 64-resolution upgrade fails with a
network error at t=1000 (cooldown until 6000); the chunk is evicted at
t=1001 and re-enters at t=1002. -/
def fC2 : Fetch := ⟨(1, 0), 64, 1⟩
def fC3 : Fetch := ⟨(1, 0), 64, 2⟩
def sC3 : MState := update [(1, 0, 64)] (fun _ => 64) 0 0 900 5 sB2
def sC4 : MState := loadChunkComplete fC2 .netErr 1000 5 sC3
def sC5 : MState := update [] (fun _ => 128) 20 0 1001 5 sC4
def sC6 : MState := update [(1, 0, 64)] (fun _ => 64) 0 0 1002 5 sC5

/-- Trace D: chunk `(1,0)`'s 128-resolution fetch had already failed on the
network when the tick at t=500 aborted it (an abort after settling leaves
the original outcome), so its handler records a cooldown until 6000 — and
wipes the tracking of the replacement 64-resolution fetch, which then
settles 202, putting `(1,0)` into pending-retry while still under cooldown.
The tick at t=2000 re-enqueues it from the retry sweep, and the queue drain
meets a cooled-down head entry with an admissible entry `(2,0)` behind it. -/
def fD1 : Fetch := ⟨(1, 0), 128, 0⟩
def fD2 : Fetch := ⟨(1, 0), 64, 1⟩
def fD3 : Fetch := ⟨(2, 0), 128, 2⟩
def sD1 : MState := update [(1, 0, 128)] (fun _ => 128) 0 0 0 5 initState
def sD2 : MState := update [(1, 0, 64)] (fun _ => 64) 0 0 500 5 sD1
def sD3 : MState := loadChunkComplete fD1 .netErr 1000 5 sD2
def sD4 : MState := loadChunkComplete fD2 .notReady 1100 5 sD3
def sD5 (fuel : Nat) : MState :=
  update [(1, 0, 64), (2, 0, 128)] (fun _ => 64) 0 0 2000 fuel sD4

/-- The cycling state the tick of trace D reaches after two loop iterations:
the cooled-down entry for `(1,0)` alone in the queue, `(2,0)` in flight. -/
def tD : MState :=
  { loadingChunks := [(2, 0)]
    loadQueue := [⟨1, 0, 1, 64⟩]
    failedChunks := [((1, 0), 6000)]
    abortControllers := [((2, 0), 2)]
    loadingResolutions := [((2, 0), 128)]
    inFlight := [⟨(2, 0), 128, 2⟩]
    aborted := [0]
    nextCtrl := 3 }

/-- Trace E: four chunks in four states — `(1,0)` under a network-failure
cooldown, `(0,1)` with a fetch in flight, `(1,1)` pending retry after a 202,
`(2,0)` blacklisted after a decode error — then `destroy()`. -/
def fE1 : Fetch := ⟨(1, 0), 128, 0⟩
def fE2 : Fetch := ⟨(0, 1), 128, 1⟩
def fE3 : Fetch := ⟨(1, 1), 128, 2⟩
def fE4 : Fetch := ⟨(2, 0), 128, 3⟩
def sE1 : MState := update [(1, 0, 128)] (fun _ => 128) 0 0 0 5 initState
def sE2 : MState := loadChunkComplete fE1 .netErr 100 5 sE1
def sE3 : MState := update [(0, 1, 128)] (fun _ => 128) 0 0 200 5 sE2
def sE4 : MState := update [(1, 1, 128)] (fun _ => 128) 0 0 300 5 sE3
def sE5 : MState := loadChunkComplete fE3 .notReady 400 5 sE4
def sE6 : MState := update [(2, 0, 128)] (fun _ => 128) 0 0 500 5 sE5
def sE7 : MState := loadChunkComplete fE4 .decodeErr 600 5 sE6
def sE8 : MState := destroy sE7

/-- A manager state with three pending requests at priorities 1, 4 and 9
(chunks `(1,0)`, `(2,0)`, `(3,0)` seen from the origin), nothing in flight. -/
def sG : MState :=
  { initState with loadQueue := [⟨1, 0, 1, 128⟩, ⟨2, 0, 4, 128⟩, ⟨3, 0, 9, 128⟩] }

lemma Reachable.stepTail {s s' : MState} (h : Reachable s) (now : Nat)
    (hs : StepAt now s s') : Reachable s' :=
  Relation.ReflTransGen.tail h ⟨now, hs⟩

lemma reach_initState : Reachable initState := Relation.ReflTransGen.refl

lemma reach_sA1 : Reachable sA1 := reach_initState.stepTail 0 (.tick _ _ _ _ _ _)

lemma reach_sA2 : Reachable sA2 := reach_sA1.stepTail 1 (.tick _ _ _ _ _ _)

lemma reach_sA3 : Reachable sA3 :=
  reach_sA2.stepTail 2 (.settle fA1 .abortErr 5 sA2 (by decide) (by decide))

lemma reach_sA4 : Reachable sA4 := reach_sA3.stepTail 3 (.tick _ _ _ _ _ _)

lemma reach_sB2 : Reachable sB2 :=
  (reach_initState.stepTail 0 (.tick _ _ _ _ _ _) : Reachable sB1).stepTail 10
    (.settle fB1 .dataOk 5 sB1 (by decide) (by decide))

lemma reach_sB6 : Reachable sB6 :=
  ((((reach_sB2.stepTail 20 (.tick _ _ _ _ _ _) : Reachable sB3).stepTail 30
    (.settle fB2 .decodeErr 5 sB3 (by decide) (by decide)) : Reachable sB4).stepTail 40
    (.tick _ _ _ _ _ _) : Reachable sB5).stepTail 50 (.tick _ _ _ _ _ _))

lemma reach_sC6 : Reachable sC6 :=
  ((((reach_sB2.stepTail 900 (.tick _ _ _ _ _ _) : Reachable sC3).stepTail 1000
    (.settle fC2 .netErr 5 sC3 (by decide) (by decide)) : Reachable sC4).stepTail 1001
    (.tick _ _ _ _ _ _) : Reachable sC5).stepTail 1002 (.tick _ _ _ _ _ _))

lemma reach_sD4 : Reachable sD4 :=
  (((reach_initState.stepTail 0 (.tick _ _ _ _ _ _) : Reachable sD1).stepTail 500
    (.tick _ _ _ _ _ _) : Reachable sD2).stepTail 1000
    (.settle fD1 .netErr 5 sD2 (by decide) (by decide)) : Reachable sD3).stepTail 1100
    (.settle fD2 .notReady 5 sD3 (by decide) (by decide))

lemma reach_sD5 (fuel : Nat) : Reachable (sD5 fuel) :=
  reach_sD4.stepTail 2000 (.tick _ _ _ _ fuel _)

lemma reach_sE8 : Reachable sE8 :=
  (((((((reach_initState.stepTail 0 (.tick _ _ _ _ _ _) : Reachable sE1).stepTail 100
    (.settle fE1 .netErr 5 sE1 (by decide) (by decide)) : Reachable sE2).stepTail 200
    (.tick _ _ _ _ _ _) : Reachable sE3).stepTail 300
    (.tick _ _ _ _ _ _) : Reachable sE4).stepTail 400
    (.settle fE3 .notReady 5 sE4 (by decide) (by decide)) : Reachable sE5).stepTail 500
    (.tick _ _ _ _ _ _) : Reachable sE6).stepTail 600
    (.settle fE4 .decodeErr 5 sE6 (by decide) (by decide)) : Reachable sE7).stepTail 700
    (.teardown _)

/-! ### Basic properties of the map and set operations -/

lemma mdel_of_mget_none {β : Type} {k : Key} {l : List (Key × β)}
    (h : mget k l = none) : mdel k l = l := by
  induction l with
  | nil => rfl
  | cons p t ih =>
    obtain ⟨a, b⟩ := p
    rw [mget] at h
    rw [mdel]
    by_cases hak : a = k
    · simp [hak] at h
    · rw [if_neg hak] at h ⊢
      rw [ih h]

lemma sdel_of_not_mem {k : Key} {l : List Key} (h : k ∉ l) : sdel k l = l := by
  induction l with
  | nil => rfl
  | cons a t ih =>
    rw [sdel]
    rw [List.mem_cons, not_or] at h
    rw [if_neg (fun hak => h.1 hak.symm), ih h.2]

lemma mget_mdel {β : Type} (k : Key) (l : List (Key × β)) : mget k (mdel k l) = none := by
  induction l with
  | nil => rfl
  | cons p t ih =>
    obtain ⟨a, b⟩ := p
    rw [mdel]
    by_cases hak : a = k
    · rw [if_pos hak]; exact ih
    · rw [if_neg hak, mget, if_neg hak]; exact ih

lemma not_mem_sdel (k : Key) (l : List Key) : k ∉ sdel k l := by
  induction l with
  | nil => simp [sdel]
  | cons a t ih =>
    rw [sdel]
    by_cases hak : a = k
    · rw [if_pos hak]; exact ih
    · rw [if_neg hak]
      simp only [List.mem_cons, not_or]
      exact ⟨fun hka => hak hka.symm, ih⟩

lemma mget_mdel_ne {β : Type} {k' k : Key} (h : k' ≠ k) (l : List (Key × β)) :
    mget k (mdel k' l) = mget k l := by
  induction l with
  | nil => rfl
  | cons p t ih =>
    obtain ⟨a, b⟩ := p
    rw [mdel, mget]
    by_cases hak : a = k'
    · rw [if_pos hak, if_neg (by rw [hak]; exact h), ih]
    · rw [if_neg hak, mget]
      by_cases hk : a = k
      · rw [if_pos hk, if_pos hk]
      · rw [if_neg hk, if_neg hk, ih]

lemma mget_mset_ne {β : Type} {k' k : Key} (h : k' ≠ k) (v : β) (l : List (Key × β)) :
    mget k (mset k' v l) = mget k l := by
  induction l with
  | nil => simp [mset, mget, h]
  | cons p t ih =>
    obtain ⟨a, b⟩ := p
    rw [mset]
    by_cases hak : a = k'
    · rw [if_pos hak, mget, mget, if_neg h, if_neg (by rw [hak]; exact h)]
    · rw [if_neg hak, mget, mget]
      by_cases hk : a = k
      · rw [if_pos hk, if_pos hk]
      · rw [if_neg hk, if_neg hk, ih]

lemma mem_sdel_of_ne {k k' : Key} {l : List Key} (hne : k ≠ k') (h : k ∈ l) :
    k ∈ sdel k' l := by
  induction l with
  | nil => simp at h
  | cons a t ih =>
    rw [sdel]
    rcases List.mem_cons.mp h with rfl | hmem
    · rw [if_neg hne]
      exact List.mem_cons_self _ _
    · by_cases hak : a = k'
      · rw [if_pos hak]; exact ih hmem
      · rw [if_neg hak]; exact List.mem_cons_of_mem _ (ih hmem)

lemma mem_sadd {k k' : Key} {l : List Key} (h : k ∈ l) : k ∈ sadd k' l := by
  rw [sadd]
  split
  · exact h
  · exact List.mem_append_left _ h

lemma sadd_length_le (k : Key) (l : List Key) : (sadd k l).length ≤ l.length + 1 := by
  rw [sadd]
  split
  · exact Nat.le_succ _
  · rw [List.length_append]
    exact Nat.le_refl _

lemma sdel_length_le (k : Key) (l : List Key) : (sdel k l).length ≤ l.length := by
  induction l with
  | nil => exact Nat.le_refl _
  | cons a t ih =>
    rw [sdel]
    split
    · exact Nat.le_succ_of_le ih
    · rw [List.length_cons]
      exact Nat.succ_le_succ ih

lemma sadd_of_not_mem {k : Key} {l : List Key} (h : k ∉ l) : sadd k l = l ++ [k] := by
  rw [sadd, if_neg h]

lemma sadd_length_of_lt {k : Key} {l : List Key} {n : Nat} (h : l.length < n) :
    (sadd k l).length ≤ n :=
  (sadd_length_le k l).trans h

/-! ### Case analysis of the synchronous prefix of `loadChunk` -/

/-- `loadChunkStart` either returns the state unchanged (one of its guards
fired) or issues exactly one fetch; in the latter case the key was neither
blacklisted nor under an active cooldown. -/
lemma loadChunkStart_cases (x z : Int) (res now : Nat) (s : MState) :
    loadChunkStart x z res now s = s ∨
    (((x, z) : Key) ∉ s.blacklistedChunks ∧
      timeActive now (mget (x, z) s.failedChunks) = false ∧
      loadChunkStart x z res now s =
        { s with
          loadingChunks := sadd (x, z) s.loadingChunks
          failedChunks := mdel (x, z) s.failedChunks
          pendingRetryChunks := mdel (x, z) s.pendingRetryChunks
          abortControllers := mset (x, z) s.nextCtrl s.abortControllers
          loadingResolutions := mset (x, z) res s.loadingResolutions
          inFlight := s.inFlight ++ [⟨(x, z), res, s.nextCtrl⟩]
          nextCtrl := s.nextCtrl + 1 }) := by
  unfold loadChunkStart
  dsimp only
  split_ifs with h1 h2 h3 h4
  · exact Or.inl rfl
  · exact Or.inl rfl
  · exact Or.inl rfl
  · exact Or.inl rfl
  · exact Or.inr ⟨h1, Bool.not_eq_true _ ▸ h4, rfl⟩

lemma loadChunkStart_blocked {x z : Int} {res now : Nat} {s : MState}
    (h : blockedKey (x, z) now s) : loadChunkStart x z res now s = s := by
  unfold loadChunkStart
  dsimp only
  split_ifs with h1 h2 h3 h4
  · rfl
  · rfl
  · rfl
  · rfl
  · rcases h with h | h
    · exact absurd h h1
    · exact absurd h h4

lemma loadChunkStart_blacklist_eq (x z : Int) (res now : Nat) (s : MState) :
    (loadChunkStart x z res now s).blacklistedChunks = s.blacklistedChunks := by
  rcases loadChunkStart_cases x z res now s with h | ⟨_, _, h⟩ <;> rw [h]

lemma loadChunkStart_loaded_eq (x z : Int) (res now : Nat) (s : MState) :
    (loadChunkStart x z res now s).loadedChunks = s.loadedChunks := by
  rcases loadChunkStart_cases x z res now s with h | ⟨_, _, h⟩ <;> rw [h]

lemma loadChunkStart_queue_eq (x z : Int) (res now : Nat) (s : MState) :
    (loadChunkStart x z res now s).loadQueue = s.loadQueue := by
  rcases loadChunkStart_cases x z res now s with h | ⟨_, _, h⟩ <;> rw [h]

lemma loadChunkStart_blocked_pres {k : Key} {now : Nat} {s : MState} (x z : Int) (res : Nat)
    (h : blockedKey k now s) : blockedKey k now (loadChunkStart x z res now s) := by
  rcases loadChunkStart_cases x z res now s with heq | ⟨hb, hf, heq⟩
  · rw [heq]; exact h
  · by_cases hk : ((x, z) : Key) = k
    · subst hk
      rcases h with h | h
      · exact absurd h hb
      · rw [h] at hf; cases hf
    · rw [heq]
      rcases h with h | h
      · exact Or.inl h
      · exact Or.inr (by rw [show ({ s with
          loadingChunks := sadd (x, z) s.loadingChunks
          failedChunks := mdel (x, z) s.failedChunks
          pendingRetryChunks := mdel (x, z) s.pendingRetryChunks
          abortControllers := mset (x, z) s.nextCtrl s.abortControllers
          loadingResolutions := mset (x, z) res s.loadingResolutions
          inFlight := s.inFlight ++ [⟨(x, z), res, s.nextCtrl⟩]
          nextCtrl := s.nextCtrl + 1 } : MState).failedChunks =
            mdel (x, z) s.failedChunks from rfl, mget_mdel_ne hk]; exact h)

lemma loadChunkStart_noNewFetch {k : Key} {now : Nat} {s : MState} (x z : Int) (res : Nat)
    (h : blockedKey k now s) : noNewFetchFor k s (loadChunkStart x z res now s) := by
  rcases loadChunkStart_cases x z res now s with heq | ⟨hb, hf, heq⟩
  · rw [heq]; exact fun f hf _ => hf
  · by_cases hk : ((x, z) : Key) = k
    · subst hk
      rcases h with h | h
      · exact absurd h hb
      · rw [h] at hf; cases hf
    · rw [heq]
      intro f hmem hkey
      rcases List.mem_append.mp hmem with hmem | hmem
      · exact hmem
      · rw [List.mem_singleton] at hmem
        rw [hmem] at hkey
        exact absurd hkey hk

/-! ### Fuel composition for the queue-drain loop -/

lemma processLoadQueue_succ (now n : Nat) (s : MState) :
    processLoadQueue now (n + 1) s = (plqStep now s).elim s (processLoadQueue now n) := rfl

lemma processLoadQueue_none {s : MState} (now n : Nat) (h : plqStep now s = none) :
    processLoadQueue now n s = s := by
  cases n with
  | zero => rfl
  | succ n => rw [processLoadQueue_succ, h, Option.elim_none]

lemma processLoadQueue_some {s s' : MState} (now n : Nat) (h : plqStep now s = some s') :
    processLoadQueue now (n + 1) s = processLoadQueue now n s' := by
  rw [processLoadQueue_succ, h, Option.elim_some]

lemma noNewFetch_trans {k : Key} {s s' s'' : MState}
    (h1 : noNewFetchFor k s s') (h2 : noNewFetchFor k s' s'') : noNewFetchFor k s s'' :=
  fun f hf hk => h1 f (h2 f hf hk) hk

lemma noNewFetch_refl {k : Key} {s : MState} : noNewFetchFor k s s := fun _ hf _ => hf

/-- A successful loop iteration dequeues the head and either just skips it,
pushes it back to the tail, or runs `loadChunkStart` on it; in every case
the budget guard held on entry. -/
lemma plqStep_cases {now : Nat} {s s' : MState} (h : plqStep now s = some s') :
    ∃ item rest, s.loadQueue = item :: rest ∧
      s.loadingChunks.length < MAX_CONCURRENT_LOADS ∧
      (s' = { s with loadQueue := rest } ∨
        s' = { s with loadQueue := rest ++ [item] } ∨
        s' = loadChunkStart item.chunkX item.chunkZ item.res now { s with loadQueue := rest }) := by
  unfold plqStep at h
  by_cases hg : s.loadingChunks.length < MAX_CONCURRENT_LOADS ∧ s.loadQueue ≠ []
  · rw [if_pos hg] at h
    cases hq : s.loadQueue with
    | nil => exact absurd hq hg.2
    | cons item rest =>
      rw [hq] at h
      dsimp only at h
      refine ⟨item, rest, rfl, hg.1, ?_⟩
      split_ifs at h with h1 h2
      · exact Or.inl (Option.some_injective _ h).symm
      · exact Or.inr (Or.inl (Option.some_injective _ h).symm)
      · exact Or.inr (Or.inr (Option.some_injective _ h).symm)
  · rw [if_neg hg] at h
    cases h

lemma plqStep_blocked {k : Key} {now : Nat} {s s' : MState}
    (h : plqStep now s = some s') (hb : blockedKey k now s) :
    blockedKey k now s' ∧ noNewFetchFor k s s' := by
  obtain ⟨item, rest, hq, hlen, hcase⟩ := plqStep_cases h
  rcases hcase with rfl | rfl | rfl
  · exact ⟨hb, fun f hf _ => hf⟩
  · exact ⟨hb, fun f hf _ => hf⟩
  · exact ⟨loadChunkStart_blocked_pres _ _ _ hb,
      loadChunkStart_noNewFetch _ _ _ hb⟩

lemma plqStep_blacklist_eq {now : Nat} {s s' : MState} (h : plqStep now s = some s') :
    s'.blacklistedChunks = s.blacklistedChunks := by
  obtain ⟨item, rest, hq, hlen, hcase⟩ := plqStep_cases h
  rcases hcase with rfl | rfl | rfl
  · rfl
  · rfl
  · exact loadChunkStart_blacklist_eq _ _ _ _ _

lemma plqStep_loading_le {now : Nat} {s s' : MState} (h : plqStep now s = some s') :
    s'.loadingChunks.length ≤ MAX_CONCURRENT_LOADS := by
  obtain ⟨item, rest, hq, hlen, hcase⟩ := plqStep_cases h
  rcases hcase with rfl | rfl | rfl
  · exact Nat.le_of_lt hlen
  · exact Nat.le_of_lt hlen
  · rcases loadChunkStart_cases item.chunkX item.chunkZ item.res now
      { s with loadQueue := rest } with heq | ⟨_, _, heq⟩
    · rw [heq]; exact Nat.le_of_lt hlen
    · rw [heq]; exact sadd_length_of_lt hlen

lemma processLoadQueue_blocked {k : Key} (now fuel : Nat) {s : MState}
    (hb : blockedKey k now s) :
    blockedKey k now (processLoadQueue now fuel s) ∧
      noNewFetchFor k s (processLoadQueue now fuel s) := by
  induction fuel generalizing s with
  | zero => exact ⟨hb, noNewFetch_refl⟩
  | succ fuel ih =>
    cases h : plqStep now s with
    | none => rw [processLoadQueue_none now _ h]; exact ⟨hb, noNewFetch_refl⟩
    | some s' =>
      rw [processLoadQueue_some now _ h]
      obtain ⟨hb', hn'⟩ := plqStep_blocked h hb
      obtain ⟨hb'', hn''⟩ := ih hb'
      exact ⟨hb'', noNewFetch_trans hn' hn''⟩

lemma processLoadQueue_blacklist_eq (now fuel : Nat) (s : MState) :
    (processLoadQueue now fuel s).blacklistedChunks = s.blacklistedChunks := by
  induction fuel generalizing s with
  | zero => rfl
  | succ fuel ih =>
    cases h : plqStep now s with
    | none => rw [processLoadQueue_none now _ h]
    | some s' =>
      rw [processLoadQueue_some now _ h, ih, plqStep_blacklist_eq h]

lemma processLoadQueue_loading_le (now fuel : Nat) {s : MState}
    (hle : s.loadingChunks.length ≤ MAX_CONCURRENT_LOADS) :
    (processLoadQueue now fuel s).loadingChunks.length ≤ MAX_CONCURRENT_LOADS := by
  induction fuel generalizing s with
  | zero => exact hle
  | succ fuel ih =>
    cases h : plqStep now s with
    | none => rw [processLoadQueue_none now _ h]; exact hle
    | some s' => rw [processLoadQueue_some now _ h]; exact ih (plqStep_loading_le h)

lemma updateCellAbort_shape (key : Key) (desiredRes : Nat) (loadingRes : Option Nat)
    (s : MState) :
    (updateCellAbort key desiredRes loadingRes s).inFlight = s.inFlight ∧
    (updateCellAbort key desiredRes loadingRes s).blacklistedChunks = s.blacklistedChunks ∧
    (updateCellAbort key desiredRes loadingRes s).failedChunks = s.failedChunks ∧
    (updateCellAbort key desiredRes loadingRes s).loadedChunks = s.loadedChunks ∧
    (updateCellAbort key desiredRes loadingRes s).pendingRetryChunks = s.pendingRetryChunks ∧
    (updateCellAbort key desiredRes loadingRes s).loadingChunks.length ≤ s.loadingChunks.length ∧
    (updateCellAbort key desiredRes loadingRes s).loadQueue = s.loadQueue ∧
    (updateCellAbort key desiredRes loadingRes s).scene = s.scene ∧
    (∀ c ∈ s.aborted, c ∈ (updateCellAbort key desiredRes loadingRes s).aborted) := by
  unfold updateCellAbort
  cases loadingRes with
  | none => exact ⟨rfl, rfl, rfl, rfl, rfl, Nat.le_refl _, rfl, rfl, fun _ h => h⟩
  | some r =>
    dsimp only
    split_ifs with h
    · cases hac : mget key s.abortControllers <;> dsimp only <;>
        exact ⟨rfl, rfl, rfl, rfl, rfl, sdel_length_le _ _, rfl, rfl,
          by first
            | exact fun _ h => h
            | exact fun _ h => List.mem_append_left _ h⟩
    · exact ⟨rfl, rfl, rfl, rfl, rfl, Nat.le_refl _, rfl, rfl, fun _ h => h⟩

lemma updateCellRest_cases (cameraChunkX cameraChunkZ : Int) (now : Nat) (x z : Int)
    (desiredRes : Nat) (loadingRes : Option Nat) (s : MState) (enq : List Key) :
    updateCellRest cameraChunkX cameraChunkZ now x z desiredRes loadingRes s enq = (s, enq) ∨
    updateCellRest cameraChunkX cameraChunkZ now x z desiredRes loadingRes s enq =
      ({ s with loadQueue := enqueueChunkLoad x z cameraChunkX cameraChunkZ desiredRes s.loadQueue },
        ((x, z) : Key) :: enq) := by
  unfold updateCellRest
  dsimp only
  split_ifs <;> first | exact Or.inl rfl | exact Or.inr rfl

/-- The per-cell body of `update` first possibly aborts a stale in-flight
fetch — which only ever shrinks `loadingChunks` and touches nothing the
failure bookkeeping depends on — and then either leaves the state alone or
replaces the queue by an `enqueueChunkLoad` of it. -/
lemma updateCell_shape (cameraChunkX cameraChunkZ : Int) (now : Nat) (x z : Int) (r : Nat)
    (s : MState) (enq : List Key) :
    ∃ s1 : MState,
      (s1.inFlight = s.inFlight ∧ s1.blacklistedChunks = s.blacklistedChunks ∧
        s1.failedChunks = s.failedChunks ∧ s1.loadedChunks = s.loadedChunks ∧
        s1.pendingRetryChunks = s.pendingRetryChunks ∧
        s1.loadingChunks.length ≤ s.loadingChunks.length ∧
        s1.loadQueue = s.loadQueue ∧ s1.scene = s.scene ∧
        (∀ c ∈ s.aborted, c ∈ s1.aborted)) ∧
      ((updateCell cameraChunkX cameraChunkZ now x z r (s, enq)).1 = s1 ∨
        (updateCell cameraChunkX cameraChunkZ now x z r (s, enq)).1 =
          { s1 with loadQueue := enqueueChunkLoad x z cameraChunkX cameraChunkZ r s1.loadQueue }) := by
  unfold updateCell
  dsimp only
  by_cases h0 : ((x, z) : Key) ∈ s.blacklistedChunks
  · rw [if_pos h0]
    exact ⟨s, ⟨rfl, rfl, rfl, rfl, rfl, Nat.le_refl _, rfl, rfl, fun _ h => h⟩, Or.inl rfl⟩
  · rw [if_neg h0]
    refine ⟨updateCellAbort (x, z) r (mget (x, z) s.loadingResolutions) s,
      updateCellAbort_shape _ _ _ _, ?_⟩
    rcases updateCellRest_cases cameraChunkX cameraChunkZ now x z r
        (mget (x, z) s.loadingResolutions)
        (updateCellAbort (x, z) r (mget (x, z) s.loadingResolutions) s) enq with h | h
    · rw [h]
      exact Or.inl rfl
    · rw [h]
      exact Or.inr rfl

/-- Running the drain loop for `a + b` iterations is running it for `a`,
then for `b` more: every mid-loop state is denoted by some fuel value. -/
lemma processLoadQueue_add (now a b : Nat) (s : MState) :
    processLoadQueue now (a + b) s = processLoadQueue now b (processLoadQueue now a s) := by
  induction a generalizing s with
  | zero => rw [Nat.zero_add]; rfl
  | succ a ih =>
    rw [Nat.succ_add]
    cases h : plqStep now s with
    | none =>
      rw [processLoadQueue_none now _ h, processLoadQueue_none now _ h,
        processLoadQueue_none now _ h]
    | some s' =>
      rw [processLoadQueue_some now _ h, processLoadQueue_some now _ h, ih]

/-- The final queue drain of a tick with fuel `a + b` is the drain with fuel
`a` continued for `b` more iterations. -/
lemma update_fuel_add (cells : List (Int × Int × Nat)) (retryRes : Key → Nat)
    (cameraChunkX cameraChunkZ : Int) (now a b : Nat) (s : MState) :
    update cells retryRes cameraChunkX cameraChunkZ now (a + b) s =
      processLoadQueue now b (update cells retryRes cameraChunkX cameraChunkZ now a s) := by
  unfold update
  exact processLoadQueue_add now a b _

lemma sD5_two : sD5 2 = tD := by decide

/-- On `tD` the drain loop spins: each iteration shifts the cooled entry and
pushes it back, leaving the state unchanged, for any amount of fuel. -/
lemma processLoadQueue_tD : ∀ n, processLoadQueue 2000 n tD = tD := by
  intro n
  induction n with
  | zero => rfl
  | succ n ih => exact ih

lemma unloadChunk_blacklist (x z : Int) (s : MState) :
    (unloadChunk x z s).blacklistedChunks = sdel (x, z) s.blacklistedChunks := by
  unfold unloadChunk
  cases h1 : mget (x, z) s.abortControllers <;>
    cases h2 : mget (x, z) s.loadedChunks <;> simp [h1, h2]

lemma unloadChunk_failed (x z : Int) (s : MState) :
    (unloadChunk x z s).failedChunks = mdel (x, z) s.failedChunks := by
  unfold unloadChunk
  cases h1 : mget (x, z) s.abortControllers <;>
    cases h2 : mget (x, z) s.loadedChunks <;> simp [h1, h2]

lemma unloadChunk_loading (x z : Int) (s : MState) :
    (unloadChunk x z s).loadingChunks = sdel (x, z) s.loadingChunks := by
  unfold unloadChunk
  cases h1 : mget (x, z) s.abortControllers <;>
    cases h2 : mget (x, z) s.loadedChunks <;> simp [h1, h2]

lemma unloadChunk_inFlight_eq (x z : Int) (s : MState) :
    (unloadChunk x z s).inFlight = s.inFlight := by
  unfold unloadChunk
  cases h1 : mget (x, z) s.abortControllers <;>
    cases h2 : mget (x, z) s.loadedChunks <;> simp [h1, h2]

lemma unloadChunk_blocked_ne {k : Key} {now : Nat} {x z : Int} {s : MState}
    (hne : ((x, z) : Key) ≠ k) (hb : blockedKey k now s) :
    blockedKey k now (unloadChunk x z s) := by
  rcases hb with hb | hb
  · exact Or.inl (by rw [unloadChunk_blacklist]; exact mem_sdel_of_ne (fun h => hne h.symm) hb)
  · exact Or.inr (by rw [unloadChunk_failed, mget_mdel_ne hne]; exact hb)

lemma unloadChunk_blacklist_mem_ne {k : Key} {x z : Int} {s : MState}
    (hne : ((x, z) : Key) ≠ k) (hb : k ∈ s.blacklistedChunks) :
    k ∈ (unloadChunk x z s).blacklistedChunks := by
  rw [unloadChunk_blacklist]
  exact mem_sdel_of_ne (fun h => hne h.symm) hb

/-- The unload sweep over keys different from `k` preserves `k`'s blocked
status, its blacklist membership, and issues no fetch at all. -/
lemma fold_unload_blocked {k : Key} (now : Nat) (keys : List Key) (st : MState)
    (hkeys : ∀ k' ∈ keys, k' ≠ k) :
    (blockedKey k now st → blockedKey k now
      (keys.foldl (fun st k => unloadChunk k.1 k.2 st) st)) ∧
    (k ∈ st.blacklistedChunks →
      k ∈ (keys.foldl (fun st k => unloadChunk k.1 k.2 st) st).blacklistedChunks) ∧
    (keys.foldl (fun st k => unloadChunk k.1 k.2 st) st).inFlight = st.inFlight := by
  induction keys generalizing st with
  | nil => exact ⟨id, id, rfl⟩
  | cons k' ks ih =>
    have hne : ((k'.1, k'.2) : Key) ≠ k := hkeys k' (List.mem_cons_self _ _)
    obtain ⟨i1, i2, i3⟩ := ih (unloadChunk k'.1 k'.2 st)
      (fun a ha => hkeys a (List.mem_cons_of_mem _ ha))
    exact ⟨fun hb => i1 (unloadChunk_blocked_ne hne hb),
      fun hb => i2 (unloadChunk_blacklist_mem_ne hne hb),
      i3.trans (unloadChunk_inFlight_eq _ _ _)⟩

/-- The per-cell sweep of a tick preserves the in-flight set, the blacklist,
the failure cooldowns, and never grows `loadingChunks`. -/
lemma fold_cells_fields (cells : List (Int × Int × Nat)) (cameraChunkX cameraChunkZ : Int)
    (now : Nat) (p : MState × List Key) :
    (cells.foldl (fun p c => updateCell cameraChunkX cameraChunkZ now c.1 c.2.1 c.2.2 p) p).1.inFlight
        = p.1.inFlight ∧
    (cells.foldl (fun p c => updateCell cameraChunkX cameraChunkZ now c.1 c.2.1 c.2.2 p) p).1.blacklistedChunks
        = p.1.blacklistedChunks ∧
    (cells.foldl (fun p c => updateCell cameraChunkX cameraChunkZ now c.1 c.2.1 c.2.2 p) p).1.failedChunks
        = p.1.failedChunks ∧
    (cells.foldl (fun p c => updateCell cameraChunkX cameraChunkZ now c.1 c.2.1 c.2.2 p) p).1.loadingChunks.length
        ≤ p.1.loadingChunks.length := by
  induction cells generalizing p with
  | nil => exact ⟨rfl, rfl, rfl, Nat.le_refl _⟩
  | cons c cs ih =>
    obtain ⟨s, enq⟩ := p
    obtain ⟨s1, ⟨e1, e2, e3, _, _, e6, _, _, _⟩, hcase⟩ :=
      updateCell_shape cameraChunkX cameraChunkZ now c.1 c.2.1 c.2.2 s enq
    obtain ⟨i1, i2, i3, i4⟩ := ih (updateCell cameraChunkX cameraChunkZ now c.1 c.2.1 c.2.2 (s, enq))
    rw [List.foldl_cons]
    have hfields :
        (updateCell cameraChunkX cameraChunkZ now c.1 c.2.1 c.2.2 (s, enq)).1.inFlight = s.inFlight ∧
        (updateCell cameraChunkX cameraChunkZ now c.1 c.2.1 c.2.2 (s, enq)).1.blacklistedChunks = s.blacklistedChunks ∧
        (updateCell cameraChunkX cameraChunkZ now c.1 c.2.1 c.2.2 (s, enq)).1.failedChunks = s.failedChunks ∧
        (updateCell cameraChunkX cameraChunkZ now c.1 c.2.1 c.2.2 (s, enq)).1.loadingChunks.length ≤ s.loadingChunks.length := by
      rcases hcase with h | h <;> rw [h] <;> exact ⟨e1, e2, e3, e6⟩
    exact ⟨i1.trans hfields.1, i2.trans hfields.2.1, i3.trans hfields.2.2.1,
      i4.trans hfields.2.2.2⟩

/-- The pending-retry sweep preserves the in-flight set, the blacklist, the
failure cooldowns, and `loadingChunks` itself. -/
lemma fold_retry_fields (l : List (Key × Nat)) (retryRes : Key → Nat)
    (cameraChunkX cameraChunkZ : Int) (now : Nat) (p : MState × List Key) :
    ((l.foldl (fun (p : MState × List Key) kv =>
        let (st, enq) := p
        if now ≥ kv.2 ∧ kv.1 ∉ enq then
          ({ st with
              loadQueue := enqueueChunkLoad kv.1.1 kv.1.2 cameraChunkX cameraChunkZ
                (retryRes kv.1) st.loadQueue
              pendingRetryChunks := mdel kv.1 st.pendingRetryChunks },
            kv.1 :: enq)
        else p) p).1.inFlight = p.1.inFlight ∧
      (l.foldl (fun (p : MState × List Key) kv =>
        let (st, enq) := p
        if now ≥ kv.2 ∧ kv.1 ∉ enq then
          ({ st with
              loadQueue := enqueueChunkLoad kv.1.1 kv.1.2 cameraChunkX cameraChunkZ
                (retryRes kv.1) st.loadQueue
              pendingRetryChunks := mdel kv.1 st.pendingRetryChunks },
            kv.1 :: enq)
        else p) p).1.blacklistedChunks = p.1.blacklistedChunks ∧
      (l.foldl (fun (p : MState × List Key) kv =>
        let (st, enq) := p
        if now ≥ kv.2 ∧ kv.1 ∉ enq then
          ({ st with
              loadQueue := enqueueChunkLoad kv.1.1 kv.1.2 cameraChunkX cameraChunkZ
                (retryRes kv.1) st.loadQueue
              pendingRetryChunks := mdel kv.1 st.pendingRetryChunks },
            kv.1 :: enq)
        else p) p).1.failedChunks = p.1.failedChunks ∧
      (l.foldl (fun (p : MState × List Key) kv =>
        let (st, enq) := p
        if now ≥ kv.2 ∧ kv.1 ∉ enq then
          ({ st with
              loadQueue := enqueueChunkLoad kv.1.1 kv.1.2 cameraChunkX cameraChunkZ
                (retryRes kv.1) st.loadQueue
              pendingRetryChunks := mdel kv.1 st.pendingRetryChunks },
            kv.1 :: enq)
        else p) p).1.loadingChunks = p.1.loadingChunks) := by
  induction l generalizing p with
  | nil => exact ⟨rfl, rfl, rfl, rfl⟩
  | cons kv t ih =>
    obtain ⟨s, enq⟩ := p
    rw [List.foldl_cons]
    dsimp only
    by_cases h : now ≥ kv.2 ∧ kv.1 ∉ enq
    · rw [if_pos h]
      exact ih _
    · rw [if_neg h]
      exact ih (s, enq)

lemma mget_mset_self {β : Type} (k : Key) (v : β) (l : List (Key × β)) :
    mget k (mset k v l) = some v := by
  induction l with
  | nil => simp [mset, mget]
  | cons p t ih =>
    obtain ⟨a, b⟩ := p
    rw [mset]
    by_cases hak : a = k
    · rw [if_pos hak, mget, if_pos rfl]
    · rw [if_neg hak, mget, if_neg hak, ih]

lemma loadChunkFinally_blocked {k : Key} {now : Nat} (key : Key) (fuel : Nat) {s : MState}
    (hb : blockedKey k now s) :
    blockedKey k now (loadChunkFinally key now fuel s) ∧
      noNewFetchFor k s (loadChunkFinally key now fuel s) := by
  unfold loadChunkFinally
  exact processLoadQueue_blocked now fuel hb

lemma loadChunkFinally_blacklist_eq (key : Key) (now fuel : Nat) (s : MState) :
    (loadChunkFinally key now fuel s).blacklistedChunks = s.blacklistedChunks := by
  unfold loadChunkFinally
  exact processLoadQueue_blacklist_eq now fuel _

/-- Composition helper: chain a blocked/no-new-fetch fact through the
`finally` block. -/
lemma blocked_finally_chain {k : Key} {now : Nat} (key : Key) (fuel : Nat)
    {s s1 : MState} (hb1 : blockedKey k now s1) (hn1 : noNewFetchFor k s s1) :
    blockedKey k now (loadChunkFinally key now fuel s1) ∧
      noNewFetchFor k s (loadChunkFinally key now fuel s1) :=
  ⟨(loadChunkFinally_blocked key fuel hb1).1,
    noNewFetch_trans hn1 (loadChunkFinally_blocked key fuel hb1).2⟩

/-- Composition helper: chain a blocked/no-new-fetch fact through a queue
drain followed by the `finally` block. -/
lemma blocked_plq_finally_chain {k : Key} {now : Nat} (key : Key) (fuel : Nat)
    {s s1 : MState} (hb1 : blockedKey k now s1) (hn1 : noNewFetchFor k s s1) :
    blockedKey k now (loadChunkFinally key now fuel (processLoadQueue now fuel s1)) ∧
      noNewFetchFor k s (loadChunkFinally key now fuel (processLoadQueue now fuel s1)) :=
  blocked_finally_chain key fuel (processLoadQueue_blocked now fuel hb1).1
    (noNewFetch_trans hn1 (processLoadQueue_blocked now fuel hb1).2)

/-- A fetch completion preserves a key's blocked status and issues no fetch
for a blocked key. -/
lemma loadChunkComplete_blocked {k : Key} {now : Nat} (f : Fetch) (o : FetchOutcome)
    (fuel : Nat) (s : MState) (hb : blockedKey k now s) :
    blockedKey k now (loadChunkComplete f o now fuel s) ∧
      noNewFetchFor k s (loadChunkComplete f o now fuel s) := by
  cases o with
  | notReady =>
    unfold loadChunkComplete
    dsimp only
    refine blocked_plq_finally_chain _ _ ?_ ?_
    · exact hb
    · exact fun f' hf' _ => List.mem_of_mem_erase hf'
  | dataOk =>
    unfold loadChunkComplete
    dsimp only
    split_ifs with h
    · cases hm : mget f.key s.loadedChunks with
      | none =>
        refine blocked_finally_chain _ _ ?_ ?_
        · exact hb
        · exact fun f' hf' _ => List.mem_of_mem_erase hf'
      | some old =>
        refine blocked_finally_chain _ _ ?_ ?_
        · exact hb
        · exact fun f' hf' _ => List.mem_of_mem_erase hf'
    · refine blocked_plq_finally_chain _ _ ?_ ?_
      · exact hb
      · exact fun f' hf' _ => List.mem_of_mem_erase hf'
  | dataBuildFail =>
    unfold loadChunkComplete
    dsimp only
    split_ifs with h
    · refine blocked_finally_chain _ _ ?_ ?_
      · rcases hb with hb | hb
        · exact Or.inl (mem_sadd hb)
        · exact Or.inr hb
      · exact fun f' hf' _ => List.mem_of_mem_erase hf'
    · refine blocked_plq_finally_chain _ _ ?_ ?_
      · exact hb
      · exact fun f' hf' _ => List.mem_of_mem_erase hf'
  | abortErr =>
    unfold loadChunkComplete
    dsimp only
    refine blocked_finally_chain _ _ ?_ ?_
    · exact hb
    · exact fun f' hf' _ => List.mem_of_mem_erase hf'
  | decodeErr =>
    unfold loadChunkComplete
    dsimp only
    refine blocked_finally_chain _ _ ?_ ?_
    · rcases hb with hb | hb
      · exact Or.inl (mem_sadd hb)
      · exact Or.inr hb
    · exact fun f' hf' _ => List.mem_of_mem_erase hf'
  | netErr =>
    unfold loadChunkComplete
    dsimp only
    refine blocked_finally_chain _ _ ?_ ?_
    · by_cases hk : f.key = k
      · refine Or.inr ?_
        show timeActive now
          (mget k (mset f.key (now + FAILED_CHUNK_COOLDOWN_MS) s.failedChunks)) = true
        rw [hk, mget_mset_self]
        show decide (now < now + FAILED_CHUNK_COOLDOWN_MS) = true
        rw [decide_eq_true_eq]
        exact Nat.lt_add_of_pos_right (by rw [FAILED_CHUNK_COOLDOWN_MS]; exact Nat.succ_pos _)
      · rcases hb with hb | hb
        · exact Or.inl hb
        · refine Or.inr ?_
          show timeActive now
            (mget k (mset f.key (now + FAILED_CHUNK_COOLDOWN_MS) s.failedChunks)) = true
          rw [mget_mset_ne hk]
          exact hb
    · exact fun f' hf' _ => List.mem_of_mem_erase hf'

/-- A fetch completion never removes a key from the blacklist. -/
lemma loadChunkComplete_blacklist_mem {k : Key} (f : Fetch) (o : FetchOutcome)
    (now fuel : Nat) (s : MState) (hm : k ∈ s.blacklistedChunks) :
    k ∈ (loadChunkComplete f o now fuel s).blacklistedChunks := by
  unfold loadChunkComplete
  dsimp only
  cases o with
  | notReady => rw [loadChunkFinally_blacklist_eq, processLoadQueue_blacklist_eq]; exact hm
  | dataOk =>
    split_ifs with h
    · cases hmm : mget f.key s.loadedChunks <;>
        · rw [loadChunkFinally_blacklist_eq]; exact hm
    · rw [loadChunkFinally_blacklist_eq, processLoadQueue_blacklist_eq]; exact hm
  | dataBuildFail =>
    split_ifs with h
    · rw [loadChunkFinally_blacklist_eq]; exact mem_sadd hm
    · rw [loadChunkFinally_blacklist_eq, processLoadQueue_blacklist_eq]; exact hm
  | abortErr => rw [loadChunkFinally_blacklist_eq]; exact hm
  | decodeErr => rw [loadChunkFinally_blacklist_eq]; exact mem_sadd hm
  | netErr => rw [loadChunkFinally_blacklist_eq]; exact hm

/-- A tick that keeps key `k` inside the unload radius preserves its blocked
status and blacklist membership, and issues no fetch for it. -/
lemma update_blocked {k : Key} {now : Nat} (cells : List (Int × Int × Nat))
    (retryRes : Key → Nat) (cameraChunkX cameraChunkZ : Int) (fuel : Nat) (s : MState)
    (hb : blockedKey k now s)
    (hx : (k.1 - cameraChunkX).natAbs ≤ UNLOAD_RADIUS)
    (hz : (k.2 - cameraChunkZ).natAbs ≤ UNLOAD_RADIUS) :
    blockedKey k now (update cells retryRes cameraChunkX cameraChunkZ now fuel s) ∧
    noNewFetchFor k s (update cells retryRes cameraChunkX cameraChunkZ now fuel s) ∧
    (k ∈ s.blacklistedChunks →
      k ∈ (update cells retryRes cameraChunkX cameraChunkZ now fuel s).blacklistedChunks) := by
  unfold update
  dsimp only
  obtain ⟨c1, c2, c3, c4⟩ := fold_cells_fields cells cameraChunkX cameraChunkZ now (s, [])
  generalize hP1 : List.foldl
    (fun (p : MState × List Key) (c : Int × Int × Nat) =>
      updateCell cameraChunkX cameraChunkZ now c.1 c.2.1 c.2.2 p)
    ((s, []) : MState × List Key) cells = P1
  rw [hP1] at c1 c2 c3 c4
  obtain ⟨r1, r2, r3, r4⟩ :=
    fold_retry_fields P1.1.pendingRetryChunks retryRes cameraChunkX cameraChunkZ now P1
  generalize hP2 : List.foldl
    (fun (p : MState × List Key) (kv : Key × Nat) =>
      let (st, enq) := p
      if now ≥ kv.2 ∧ kv.1 ∉ enq then
        ({ st with
            loadQueue := enqueueChunkLoad kv.1.1 kv.1.2 cameraChunkX cameraChunkZ
              (retryRes kv.1) st.loadQueue
            pendingRetryChunks := mdel kv.1 st.pendingRetryChunks },
          kv.1 :: enq)
      else p)
    P1 P1.1.pendingRetryChunks = P2
  rw [hP2] at r1 r2 r3 r4
  have hkeys : ∀ k' ∈ (P2.1.loadedChunks.filter
      (fun kv => decide ((kv.1.1 - cameraChunkX).natAbs > UNLOAD_RADIUS ∨
        (kv.1.2 - cameraChunkZ).natAbs > UNLOAD_RADIUS))).map Prod.fst, k' ≠ k := by
    intro k' hk' heq
    obtain ⟨kv, hkv, hfst⟩ := List.mem_map.mp hk'
    have hp := (List.mem_filter.mp hkv).2
    rw [decide_eq_true_eq] at hp
    rw [hfst, heq] at hp
    rcases hp with hp | hp
    · omega
    · omega
  obtain ⟨u1, u2, u3⟩ := fold_unload_blocked now
    ((P2.1.loadedChunks.filter
      (fun kv => decide ((kv.1.1 - cameraChunkX).natAbs > UNLOAD_RADIUS ∨
        (kv.1.2 - cameraChunkZ).natAbs > UNLOAD_RADIUS))).map Prod.fst) P2.1 hkeys
  generalize hS3 : List.foldl (fun (st : MState) (k : Key) => unloadChunk k.1 k.2 st) P2.1
    ((P2.1.loadedChunks.filter
      (fun kv => decide ((kv.1.1 - cameraChunkX).natAbs > UNLOAD_RADIUS ∨
        (kv.1.2 - cameraChunkZ).natAbs > UNLOAD_RADIUS))).map Prod.fst) = S3
  rw [hS3] at u1 u2 u3
  have hb1 : blockedKey k now P1.1 := by
    rcases hb with h | h
    · exact Or.inl (by rw [c2]; exact h)
    · exact Or.inr (by rw [c3]; exact h)
  have hb2 : blockedKey k now P2.1 := by
    rcases hb1 with h | h
    · exact Or.inl (by rw [r2]; exact h)
    · exact Or.inr (by rw [r3]; exact h)
  have hb3 : blockedKey k now S3 := u1 hb2
  obtain ⟨q1, q2⟩ := processLoadQueue_blocked now fuel hb3
  refine ⟨q1, ?_, ?_⟩
  · intro f hf hk
    have hmem := q2 f hf hk
    rw [u3, r1, c1] at hmem
    exact hmem
  · intro hm
    rw [processLoadQueue_blacklist_eq]
    refine u2 ?_
    rw [r2, c2]
    exact hm

lemma plqStep_failed_eq {k : Key} {now : Nat} {s s' : MState}
    (h : plqStep now s = some s') (ha : timeActive now (mget k s.failedChunks) = true) :
    mget k s'.failedChunks = mget k s.failedChunks := by
  obtain ⟨item, rest, hq, hlen, hcase⟩ := plqStep_cases h
  rcases hcase with rfl | rfl | rfl
  · rfl
  · rfl
  · by_cases hk : ((item.chunkX, item.chunkZ) : Key) = k
    · rw [loadChunkStart_blocked (x := item.chunkX) (z := item.chunkZ)
        (by rw [hk]; exact Or.inr ha)]
    · rcases loadChunkStart_cases item.chunkX item.chunkZ item.res now
          { s with loadQueue := rest } with heq | ⟨_, _, heq⟩
      · rw [heq]
      · rw [heq]
        exact mget_mdel_ne hk _

lemma processLoadQueue_failed_eq {k : Key} {now : Nat} (fuel : Nat) {s : MState}
    (ha : timeActive now (mget k s.failedChunks) = true) :
    mget k (processLoadQueue now fuel s).failedChunks = mget k s.failedChunks := by
  induction fuel generalizing s with
  | zero => rfl
  | succ fuel ih =>
    cases h : plqStep now s with
    | none => rw [processLoadQueue_none now _ h]
    | some s' =>
      rw [processLoadQueue_some now _ h]
      have he := plqStep_failed_eq h ha
      rw [ih (by rw [he]; exact ha), he]

/-- `unloadChunk` is the identity on a state whose key is absent from every
tracking structure. -/
lemma unloadChunk_noop (x z : Int) (s : MState)
    (h1 : mget (x, z) s.abortControllers = none) (h2 : (x, z) ∉ s.loadingChunks)
    (h3 : mget (x, z) s.pendingRetryChunks = none) (h4 : mget (x, z) s.failedChunks = none)
    (h5 : (x, z) ∉ s.blacklistedChunks) (h6 : mget (x, z) s.loadingResolutions = none)
    (h7 : mget (x, z) s.loadedChunks = none) :
    unloadChunk x z s = s := by
  unfold unloadChunk
  simp only [h1, mdel_of_mget_none h3, mdel_of_mget_none h4, mdel_of_mget_none h6,
    sdel_of_not_mem h2, sdel_of_not_mem h5, h7]

/-- After `unloadChunk`, the key is absent from every tracking structure. -/
lemma unloadChunk_cleared (x z : Int) (s : MState) :
    mget (x, z) (unloadChunk x z s).abortControllers = none ∧
    (x, z) ∉ (unloadChunk x z s).loadingChunks ∧
    mget (x, z) (unloadChunk x z s).pendingRetryChunks = none ∧
    mget (x, z) (unloadChunk x z s).failedChunks = none ∧
    (x, z) ∉ (unloadChunk x z s).blacklistedChunks ∧
    mget (x, z) (unloadChunk x z s).loadingResolutions = none ∧
    mget (x, z) (unloadChunk x z s).loadedChunks = none := by
  unfold unloadChunk
  cases h1 : mget (x, z) s.abortControllers <;>
    cases h2 : mget (x, z) s.loadedChunks <;>
      simp [h1, h2, mget_mdel, not_mem_sdel]

lemma mem_mdel {β : Type} {p : Key × β} {k : Key} {l : List (Key × β)}
    (h : p ∈ mdel k l) : p ∈ l ∧ p.1 ≠ k := by
  induction l with
  | nil => simp [mdel] at h
  | cons q t ih =>
    obtain ⟨a, b⟩ := q
    rw [mdel] at h
    by_cases hak : a = k
    · rw [if_pos hak] at h
      exact ⟨List.mem_cons_of_mem _ (ih h).1, (ih h).2⟩
    · rw [if_neg hak] at h
      rcases List.mem_cons.mp h with h | h
      · exact ⟨List.mem_cons.mpr (Or.inl h), by rw [h]; exact hak⟩
      · exact ⟨List.mem_cons_of_mem _ (ih h).1, (ih h).2⟩

lemma mget_none_not_mem {β : Type} {k : Key} {l : List (Key × β)}
    (h : mget k l = none) {p : Key × β} (hp : p ∈ l) : p.1 ≠ k := by
  induction l with
  | nil => simp at hp
  | cons q t ih =>
    obtain ⟨a, b⟩ := q
    rw [mget] at h
    by_cases hak : a = k
    · simp [hak] at h
    · rw [if_neg hak] at h
      rcases List.mem_cons.mp hp with hp | hp
      · rw [hp]; exact hak
      · exact ih h hp

lemma unloadChunk_queue_eq (x z : Int) (s : MState) :
    (unloadChunk x z s).loadQueue = s.loadQueue := by
  unfold unloadChunk
  cases h1 : mget (x, z) s.abortControllers <;>
    cases h2 : mget (x, z) s.loadedChunks <;> simp [h1, h2]

lemma unloadChunk_ac_nil (x z : Int) {s : MState} (h : s.abortControllers = []) :
    (unloadChunk x z s).abortControllers = [] := by
  unfold unloadChunk
  rw [h]
  cases h2 : mget (x, z) s.loadedChunks <;> simp [mget, h, h2]

lemma unloadChunk_lr_nil (x z : Int) {s : MState} (h : s.loadingResolutions = []) :
    (unloadChunk x z s).loadingResolutions = [] := by
  unfold unloadChunk
  cases h1 : mget (x, z) s.abortControllers <;>
    cases h2 : mget (x, z) s.loadedChunks <;> simp [mdel, h1, h2, h]

lemma unloadChunk_aborted_sub (x z : Int) {s : MState} {c : Nat} (h : c ∈ s.aborted) :
    c ∈ (unloadChunk x z s).aborted := by
  unfold unloadChunk
  cases h1 : mget (x, z) s.abortControllers <;>
    cases h2 : mget (x, z) s.loadedChunks <;>
      simp [h1, h2, List.mem_append, h]

lemma unloadChunk_loaded_sub (x z : Int) {s : MState} {p : Key × Mb}
    (h : p ∈ (unloadChunk x z s).loadedChunks) : p ∈ s.loadedChunks ∧ p.1 ≠ (x, z) := by
  cases h1 : mget (x, z) s.abortControllers <;>
    cases h2 : mget (x, z) s.loadedChunks <;>
      simp only [unloadChunk, h1, h2] at h
  · exact ⟨h, mget_none_not_mem h2 h⟩
  · exact mem_mdel h
  · exact ⟨h, mget_none_not_mem h2 h⟩
  · exact mem_mdel h

lemma fold_unload_ac_nil (keys : List Key) (st : MState) (h : st.abortControllers = []) :
    (keys.foldl (fun st k => unloadChunk k.1 k.2 st) st).abortControllers = [] := by
  induction keys generalizing st with
  | nil => exact h
  | cons k ks ih => exact ih _ (unloadChunk_ac_nil k.1 k.2 h)

lemma fold_unload_lr_nil (keys : List Key) (st : MState) (h : st.loadingResolutions = []) :
    (keys.foldl (fun st k => unloadChunk k.1 k.2 st) st).loadingResolutions = [] := by
  induction keys generalizing st with
  | nil => exact h
  | cons k ks ih => exact ih _ (unloadChunk_lr_nil k.1 k.2 h)

lemma fold_unload_aborted (keys : List Key) (st : MState) {c : Nat} (h : c ∈ st.aborted) :
    c ∈ (keys.foldl (fun st k => unloadChunk k.1 k.2 st) st).aborted := by
  induction keys generalizing st with
  | nil => exact h
  | cons k ks ih => exact ih _ (unloadChunk_aborted_sub k.1 k.2 h)

lemma fold_unload_loaded_empty (keys : List Key) (st : MState)
    (h : ∀ p ∈ st.loadedChunks, p.1 ∈ keys) :
    (keys.foldl (fun st k => unloadChunk k.1 k.2 st) st).loadedChunks = [] := by
  induction keys generalizing st with
  | nil =>
    exact List.eq_nil_iff_forall_not_mem.mpr fun p hp => List.not_mem_nil p.1 (h p hp)
  | cons k ks ih =>
    refine ih _ fun p hp => ?_
    obtain ⟨hmem, hne⟩ := unloadChunk_loaded_sub k.1 k.2 hp
    rcases List.mem_cons.mp (h p hmem) with heq | hks
    · exact absurd heq hne
    · exact hks

/-! ### The concurrency budget invariant -/

lemma unloadChunk_loading_le (x z : Int) (s : MState) :
    (unloadChunk x z s).loadingChunks.length ≤ s.loadingChunks.length := by
  rw [unloadChunk_loading]
  exact sdel_length_le _ _

lemma fold_unload_loading_le (keys : List Key) (st : MState) :
    (keys.foldl (fun st k => unloadChunk k.1 k.2 st) st).loadingChunks.length ≤
      st.loadingChunks.length := by
  induction keys generalizing st with
  | nil => exact Nat.le_refl _
  | cons k ks ih => exact (ih _).trans (unloadChunk_loading_le k.1 k.2 st)

lemma update_loading_le (cells : List (Int × Int × Nat)) (retryRes : Key → Nat)
    (cameraChunkX cameraChunkZ : Int) (now fuel : Nat) (s : MState)
    (hle : s.loadingChunks.length ≤ MAX_CONCURRENT_LOADS) :
    (update cells retryRes cameraChunkX cameraChunkZ now fuel s).loadingChunks.length ≤
      MAX_CONCURRENT_LOADS := by
  unfold update
  dsimp only
  refine processLoadQueue_loading_le now fuel ?_
  refine (fold_unload_loading_le _ _).trans ?_
  obtain ⟨_, _, _, r4⟩ :=
    fold_retry_fields _ retryRes cameraChunkX cameraChunkZ now
      (List.foldl (fun (p : MState × List Key) (c : Int × Int × Nat) =>
        updateCell cameraChunkX cameraChunkZ now c.1 c.2.1 c.2.2 p) ((s, []) : MState × List Key) cells)
  rw [r4]
  obtain ⟨_, _, _, c4⟩ := fold_cells_fields cells cameraChunkX cameraChunkZ now (s, [])
  exact c4.trans hle

lemma loadChunkFinally_loading_le (key : Key) (now fuel : Nat) {s : MState}
    (hle : s.loadingChunks.length ≤ MAX_CONCURRENT_LOADS) :
    (loadChunkFinally key now fuel s).loadingChunks.length ≤ MAX_CONCURRENT_LOADS := by
  unfold loadChunkFinally
  exact processLoadQueue_loading_le now fuel ((sdel_length_le _ _).trans hle)

lemma loadChunkComplete_loading_le (f : Fetch) (o : FetchOutcome) (now fuel : Nat)
    (s : MState) (hle : s.loadingChunks.length ≤ MAX_CONCURRENT_LOADS) :
    (loadChunkComplete f o now fuel s).loadingChunks.length ≤ MAX_CONCURRENT_LOADS := by
  cases o with
  | notReady =>
    unfold loadChunkComplete
    dsimp only
    exact loadChunkFinally_loading_le _ now fuel
      (processLoadQueue_loading_le now fuel ((sdel_length_le _ _).trans hle))
  | dataOk =>
    unfold loadChunkComplete
    dsimp only
    split_ifs with h
    · cases hm : mget f.key s.loadedChunks <;>
        exact loadChunkFinally_loading_le _ now fuel hle
    · exact loadChunkFinally_loading_le _ now fuel
        (processLoadQueue_loading_le now fuel ((sdel_length_le _ _).trans hle))
  | dataBuildFail =>
    unfold loadChunkComplete
    dsimp only
    split_ifs with h
    · exact loadChunkFinally_loading_le _ now fuel hle
    · exact loadChunkFinally_loading_le _ now fuel
        (processLoadQueue_loading_le now fuel ((sdel_length_le _ _).trans hle))
  | abortErr =>
    unfold loadChunkComplete
    dsimp only
    exact loadChunkFinally_loading_le _ now fuel hle
  | decodeErr =>
    unfold loadChunkComplete
    dsimp only
    exact loadChunkFinally_loading_le _ now fuel hle
  | netErr =>
    unfold loadChunkComplete
    dsimp only
    exact loadChunkFinally_loading_le _ now fuel hle

lemma destroy_loading_le (s : MState)
    (hle : s.loadingChunks.length ≤ MAX_CONCURRENT_LOADS) :
    (destroy s).loadingChunks.length ≤ MAX_CONCURRENT_LOADS := by
  unfold destroy
  dsimp only
  exact (fold_unload_loading_le _ _).trans hle

/-- One step of the system never pushes `loadingChunks` above the budget. -/
lemma step_loading_le {now : Nat} {s s' : MState} (h : StepAt now s s')
    (hle : s.loadingChunks.length ≤ MAX_CONCURRENT_LOADS) :
    s'.loadingChunks.length ≤ MAX_CONCURRENT_LOADS := by
  cases h with
  | tick cells retryRes cameraChunkX cameraChunkZ fuel s =>
    exact update_loading_le cells retryRes cameraChunkX cameraChunkZ now fuel s hle
  | settle f o fuel s hf ho => exact loadChunkComplete_loading_le f o now fuel s hle
  | teardown s => exact destroy_loading_le s hle

/-! ### Properties of the queue primitives -/

lemma removeQueued_sublist (x z : Int) (q : List QItem) :
    (removeQueued x z q).1.Sublist q := by
  induction q with
  | nil => exact List.Sublist.refl _
  | cons it t ih =>
    rw [removeQueued]
    split_ifs with h
    · exact (List.Sublist.refl t).cons _
    · exact List.cons_sublist_cons.mpr ih

lemma removeQueued_none_nomatch {x z : Int} {q : List QItem}
    (h : (removeQueued x z q).2 = none) : ∀ it ∈ q, ¬(it.chunkX = x ∧ it.chunkZ = z) := by
  induction q with
  | nil => intro it hit; simp at hit
  | cons a t ih =>
    rw [removeQueued] at h
    split_ifs at h with ha
    intro it hit
    rcases List.mem_cons.mp hit with rfl | hit
    · exact ha
    · exact ih h it hit

lemma removeQueued_of_mem_nodup {x z : Int} {q : List QItem} {it0 : QItem}
    (hn : (qKeys q).Nodup) (hm : it0 ∈ q) (hx : it0.chunkX = x) (hz : it0.chunkZ = z) :
    (removeQueued x z q).2 = some it0 := by
  induction q with
  | nil => simp at hm
  | cons a t ih =>
    rw [removeQueued]
    rw [qKeys, List.map_cons, List.nodup_cons] at hn
    split_ifs with ha
    · rcases List.mem_cons.mp hm with rfl | hm
      · rfl
      · exfalso
        refine hn.1 ?_
        rw [ha.1, ha.2, ← hx, ← hz]
        exact List.mem_map.mpr ⟨it0, hm, rfl⟩
    · rcases List.mem_cons.mp hm with rfl | hm
      · exact absurd ⟨hx, hz⟩ ha
      · exact ih hn.2 hm

lemma filter_key_nil_of_not_mem {x z : Int} {l : List QItem}
    (h : ((x, z) : Key) ∉ qKeys l) :
    l.filter (fun it => decide (it.chunkX = x ∧ it.chunkZ = z)) = [] := by
  rw [List.filter_eq_nil]
  intro it hit hdec
  rw [decide_eq_true_eq] at hdec
  exact h (List.mem_map.mpr ⟨it, hit, by rw [hdec.1, hdec.2]⟩)

lemma removeQueued_filters {x z : Int} {q : List QItem} (hn : (qKeys q).Nodup) :
    (removeQueued x z q).1.filter (fun it => decide ¬(it.chunkX = x ∧ it.chunkZ = z)) =
      q.filter (fun it => decide ¬(it.chunkX = x ∧ it.chunkZ = z)) ∧
    (removeQueued x z q).1.filter (fun it => decide (it.chunkX = x ∧ it.chunkZ = z)) = [] := by
  induction q with
  | nil => exact ⟨rfl, rfl⟩
  | cons a t ih =>
    rw [qKeys, List.map_cons, List.nodup_cons] at hn
    rw [removeQueued]
    split_ifs with ha
    · constructor
      · rw [List.filter_cons_of_neg]
        rw [decide_eq_true_eq]
        exact not_not_intro ha
      · refine filter_key_nil_of_not_mem ?_
        rw [← ha.1, ← ha.2]
        exact hn.1
    · have ih' := ih hn.2
      constructor
      · show List.filter _ (a :: (removeQueued x z t).1) = _
        rw [List.filter_cons, List.filter_cons, ih'.1]
      · show List.filter _ (a :: (removeQueued x z t).1) = _
        rw [List.filter_cons_of_neg, ih'.2]
        rw [decide_eq_true_eq]
        exact ha

lemma insertByDistance_perm (it : QItem) (l : List QItem) :
    List.Perm (insertByDistance it l) (it :: l) := by
  induction l with
  | nil => exact List.Perm.refl _
  | cons h t ih =>
    rw [insertByDistance]
    split_ifs with hlt
    · exact List.Perm.refl _
    · exact (List.Perm.cons h ih).trans (List.Perm.swap it h t)

lemma insertByDistance_filter_of_neg {p : QItem → Bool} {it : QItem}
    (hit : p it = false) (l : List QItem) :
    (insertByDistance it l).filter p = l.filter p := by
  induction l with
  | nil => simp [insertByDistance, hit]
  | cons h t ih =>
    rw [insertByDistance]
    split_ifs with hlt
    · rw [List.filter_cons_of_neg (by rw [hit]; exact Bool.false_ne_true)]
    · rw [List.filter_cons, List.filter_cons, ih]

lemma insertByDistance_filter_of_pos {p : QItem → Bool} {it : QItem}
    (hit : p it = true) {l : List QItem} (hl : ∀ a ∈ l, ¬p a = true) :
    (insertByDistance it l).filter p = [it] := by
  induction l with
  | nil => simp [insertByDistance, hit]
  | cons h t ih =>
    rw [insertByDistance]
    split_ifs with hlt
    · rw [List.filter_cons_of_pos hit, List.filter_cons_of_neg (hl h (List.mem_cons_self _ _)),
        List.filter_eq_nil.mpr fun a ha => hl a (List.mem_cons_of_mem _ ha)]
    · rw [List.filter_cons_of_neg (hl h (List.mem_cons_self _ _)),
        ih fun a ha => hl a (List.mem_cons_of_mem _ ha)]

lemma qKeys_insertByDistance_nodup {x z : Int} {d : Int} {res : Nat} {l : List QItem}
    (hn : (qKeys l).Nodup) (hnm : ((x, z) : Key) ∉ qKeys l) :
    (qKeys (insertByDistance ⟨x, z, d, res⟩ l)).Nodup := by
  have hperm : List.Perm (qKeys (insertByDistance ⟨x, z, d, res⟩ l)) (((x, z) : Key) :: qKeys l) :=
    (insertByDistance_perm _ l).map _
  rw [hperm.nodup_iff, List.nodup_cons]
  exact ⟨hnm, hn⟩

lemma removeQueued_keys_not_mem {x z : Int} {q : List QItem} (hn : (qKeys q).Nodup) :
    ((x, z) : Key) ∉ qKeys (removeQueued x z q).1 := by
  intro hmem
  obtain ⟨it, hit, hkey⟩ := List.mem_map.mp hmem
  have := (removeQueued_filters (x := x) (z := z) hn).2
  rw [List.filter_eq_nil] at this
  refine this it hit ?_
  rw [decide_eq_true_eq]
  exact ⟨congrArg Prod.fst hkey, congrArg Prod.snd hkey⟩

lemma qKeys_sublist_nodup {q q' : List QItem} (hs : q'.Sublist q)
    (hn : (qKeys q).Nodup) : (qKeys q').Nodup :=
  List.Nodup.sublist (hs.map _) hn

/-- `enqueueChunkLoad` keeps queue keys duplicate-free. -/
lemma enqueueChunkLoad_nodup {x z cameraChunkX cameraChunkZ : Int} {res : Nat}
    {q : List QItem} (hn : (qKeys q).Nodup) :
    (qKeys (enqueueChunkLoad x z cameraChunkX cameraChunkZ res q)).Nodup := by
  unfold enqueueChunkLoad
  dsimp only
  cases hr : (removeQueued x z q).2 with
  | none =>
    dsimp only
    refine qKeys_insertByDistance_nodup hn ?_
    intro hmem
    obtain ⟨it, hit, hkey⟩ := List.mem_map.mp hmem
    exact removeQueued_none_nomatch hr it hit
      ⟨congrArg Prod.fst hkey, congrArg Prod.snd hkey⟩
  | some ex =>
    dsimp only
    split_ifs with hsame
    · exact hn
    · exact qKeys_insertByDistance_nodup
        (qKeys_sublist_nodup (removeQueued_sublist x z q) hn)
        (removeQueued_keys_not_mem hn)

/-! ### Priority order: sortedness and the admission order of the gate -/

lemma insertByDistance_sorted {it : QItem} {l : List QItem}
    (hs : l.Pairwise (fun a b => a.distanceSquared ≤ b.distanceSquared)) :
    (insertByDistance it l).Pairwise (fun a b => a.distanceSquared ≤ b.distanceSquared) := by
  induction l with
  | nil => exact List.pairwise_singleton _ _
  | cons h t ih =>
    rw [insertByDistance]
    rw [List.pairwise_cons] at hs
    split_ifs with hlt
    · rw [List.pairwise_cons]
      refine ⟨?_, List.pairwise_cons.mpr hs⟩
      intro b hb
      rcases List.mem_cons.mp hb with rfl | hb
      · exact Int.le_of_lt hlt
      · exact (Int.le_of_lt hlt).trans (hs.1 b hb)
    · rw [List.pairwise_cons]
      refine ⟨?_, ih hs.2⟩
      intro b hb
      rcases List.mem_cons.mp ((insertByDistance_perm it t).mem_iff.mp hb) with rfl | hb
      · exact Int.not_lt.mp hlt
      · exact hs.1 b hb

/-- `enqueueChunkLoad` keeps the queue sorted by ascending priority. -/
lemma enqueueChunkLoad_sorted {x z cameraChunkX cameraChunkZ : Int} {res : Nat}
    {q : List QItem}
    (hs : q.Pairwise (fun a b => a.distanceSquared ≤ b.distanceSquared)) :
    (enqueueChunkLoad x z cameraChunkX cameraChunkZ res q).Pairwise
      (fun a b => a.distanceSquared ≤ b.distanceSquared) := by
  unfold enqueueChunkLoad
  dsimp only
  cases hr : (removeQueued x z q).2 with
  | none => exact insertByDistance_sorted hs
  | some ex =>
    dsimp only
    split_ifs with hsame
    · exact hs
    · exact insertByDistance_sorted (List.Pairwise.sublist (removeQueued_sublist x z q) hs)

/-- When none of its guards fire, `loadChunkStart` issues exactly one
fetch. -/
lemma loadChunkStart_issues {x z : Int} {res now : Nat} {s : MState}
    (h1 : ((x, z) : Key) ∉ s.blacklistedChunks)
    (h2 : meshResolution s (x, z) ≠ some res)
    (h3 : ¬(((x, z) : Key) ∈ s.loadingChunks ∧ mget (x, z) s.loadingResolutions = some res))
    (h4 : timeActive now (mget (x, z) s.failedChunks) = false) :
    loadChunkStart x z res now s =
      { s with
        loadingChunks := sadd (x, z) s.loadingChunks
        failedChunks := mdel (x, z) s.failedChunks
        pendingRetryChunks := mdel (x, z) s.pendingRetryChunks
        abortControllers := mset (x, z) s.nextCtrl s.abortControllers
        loadingResolutions := mset (x, z) res s.loadingResolutions
        inFlight := s.inFlight ++ [⟨(x, z), res, s.nextCtrl⟩]
        nextCtrl := s.nextCtrl + 1 } := by
  unfold loadChunkStart
  dsimp only
  rw [if_neg h1, if_neg h2, if_neg h3, if_neg (by rw [h4]; exact Bool.false_ne_true)]

/-- On a non-empty queue whose head is admissible, below budget, the loop
body runs `loadChunkStart` on the head. -/
lemma plqStep_admit {now : Nat} {s : MState} {item : QItem} {rest : List QItem}
    (hq : s.loadQueue = item :: rest)
    (hl : s.loadingChunks.length < MAX_CONCURRENT_LOADS)
    (ha : admissible now s item) :
    plqStep now s = some (loadChunkStart item.chunkX item.chunkZ item.res now
      { s with loadQueue := rest }) := by
  unfold admissible at ha
  obtain ⟨a1, a2, a3, a4, a5⟩ := ha
  unfold plqStep
  rw [if_pos ⟨hl, by rw [hq]; exact List.cons_ne_nil _ _⟩, hq]
  dsimp only
  rw [if_neg ?hc1, if_neg ?hc2]
  case hc1 =>
    intro hc
    rcases hc with hc | hc | hc
    · exact a1 hc
    · rw [a3] at hc
      exact Option.noConfusion hc
    · exact a4 hc
  case hc2 =>
    rw [a5]
    exact Bool.false_ne_true

/-- The gate admits the longest admissible queue head segment that fits in
the budget, in queue order: the fetches appended to `inFlight` are exactly
the first `MAX_CONCURRENT_LOADS - loadingChunks.size` queue entries, and
the rest of the queue survives. -/
lemma processLoadQueue_admission (now : Nat) :
    ∀ (q : List QItem) (fuel : Nat) (s : MState),
      s.loadQueue = q →
      (∀ it ∈ q, admissible now s it) →
      (qKeys q).Nodup →
      q.length ≤ fuel →
      ∃ new : List Fetch,
        (processLoadQueue now fuel s).inFlight = s.inFlight ++ new ∧
        new.map (fun fe => (fe.key, fe.res)) =
          (q.take (MAX_CONCURRENT_LOADS - s.loadingChunks.length)).map
            (fun it => (((it.chunkX, it.chunkZ) : Key), it.res)) ∧
        (processLoadQueue now fuel s).loadQueue =
          q.drop (MAX_CONCURRENT_LOADS - s.loadingChunks.length) := by
  intro q
  induction q with
  | nil =>
    intro fuel s hq _ _ _
    have hstep : plqStep now s = none := by
      unfold plqStep
      rw [if_neg (fun hc => hc.2 hq)]
    rw [processLoadQueue_none now fuel hstep]
    exact ⟨[], (List.append_nil _).symm, by simp, by rw [hq, List.drop_nil]⟩
  | cons item rest ih =>
    intro fuel s hq hadm hn hlen
    by_cases hl : s.loadingChunks.length < MAX_CONCURRENT_LOADS
    · obtain ⟨f, rfl⟩ : ∃ f, fuel = f + 1 := by
        rcases fuel with _ | f
        · exfalso
          rw [List.length_cons] at hlen
          omega
        · exact ⟨f, rfl⟩
      have ha0 := hadm item (List.mem_cons_self _ _)
      have hstep := plqStep_admit hq hl ha0
      unfold admissible at ha0
      obtain ⟨a1, a2, a3, a4, a5⟩ := ha0
      have hsadd : sadd ((item.chunkX, item.chunkZ) : Key) s.loadingChunks =
          s.loadingChunks ++ [(item.chunkX, item.chunkZ)] := sadd_of_not_mem a2
      have hissue : loadChunkStart item.chunkX item.chunkZ item.res now
          { s with loadQueue := rest } =
        { s with
          loadQueue := rest
          loadingChunks := sadd (item.chunkX, item.chunkZ) s.loadingChunks
          failedChunks := mdel (item.chunkX, item.chunkZ) s.failedChunks
          pendingRetryChunks := mdel (item.chunkX, item.chunkZ) s.pendingRetryChunks
          abortControllers := mset (item.chunkX, item.chunkZ) s.nextCtrl s.abortControllers
          loadingResolutions := mset (item.chunkX, item.chunkZ) item.res s.loadingResolutions
          inFlight := s.inFlight ++ [⟨(item.chunkX, item.chunkZ), item.res, s.nextCtrl⟩]
          nextCtrl := s.nextCtrl + 1 } :=
        loadChunkStart_issues (s := { s with loadQueue := rest }) a1 a4 (fun hc => a2 hc.1) a5
      rw [processLoadQueue_some now f hstep, hissue]
      rw [qKeys, List.map_cons, List.nodup_cons] at hn
      have hadm2 : ∀ it ∈ rest, admissible now
          { s with
            loadQueue := rest
            loadingChunks := sadd (item.chunkX, item.chunkZ) s.loadingChunks
            failedChunks := mdel (item.chunkX, item.chunkZ) s.failedChunks
            pendingRetryChunks := mdel (item.chunkX, item.chunkZ) s.pendingRetryChunks
            abortControllers := mset (item.chunkX, item.chunkZ) s.nextCtrl s.abortControllers
            loadingResolutions := mset (item.chunkX, item.chunkZ) item.res s.loadingResolutions
            inFlight := s.inFlight ++ [⟨(item.chunkX, item.chunkZ), item.res, s.nextCtrl⟩]
            nextCtrl := s.nextCtrl + 1 } it := by
        intro it hit
        have hb := hadm it (List.mem_cons_of_mem _ hit)
        unfold admissible at hb ⊢
        obtain ⟨b1, b2, b3, b4, b5⟩ := hb
        have hkne : ((it.chunkX, it.chunkZ) : Key) ≠ (item.chunkX, item.chunkZ) := by
          intro he
          exact hn.1 (he ▸ List.mem_map.mpr ⟨it, hit, rfl⟩)
        refine ⟨b1, ?_, ?_, b4, ?_⟩
        · show ((it.chunkX, it.chunkZ) : Key) ∉ sadd (item.chunkX, item.chunkZ) s.loadingChunks
          rw [hsadd]
          intro hmem
          rcases List.mem_append.mp hmem with hmem | hmem
          · exact b2 hmem
          · exact hkne (List.mem_singleton.mp hmem)
        · show mget (it.chunkX, it.chunkZ)
            (mset (item.chunkX, item.chunkZ) item.res s.loadingResolutions) = none
          rw [mget_mset_ne (fun h => hkne h.symm)]
          exact b3
        · show timeActive now (mget (it.chunkX, it.chunkZ)
            (mdel (item.chunkX, item.chunkZ) s.failedChunks)) = false
          rw [mget_mdel_ne (fun h => hkne h.symm)]
          exact b5
      have hnd2 : (qKeys rest).Nodup := hn.2
      have hlen2 : rest.length ≤ f := by
        rw [List.length_cons] at hlen
        omega
      obtain ⟨new', hin', hmap', hq'⟩ := ih f _ rfl hadm2 hnd2 hlen2
      have hlen1 : (sadd ((item.chunkX, item.chunkZ) : Key) s.loadingChunks).length =
          s.loadingChunks.length + 1 := by
        rw [hsadd, List.length_append, List.length_singleton]
      have hm : MAX_CONCURRENT_LOADS - s.loadingChunks.length =
          (MAX_CONCURRENT_LOADS - (s.loadingChunks.length + 1)) + 1 := by omega
      have hmap2 : new'.map (fun fe => (fe.key, fe.res)) =
          (rest.take (MAX_CONCURRENT_LOADS - (s.loadingChunks.length + 1))).map
            (fun it => (((it.chunkX, it.chunkZ) : Key), it.res)) := by
        rw [← hlen1]
        exact hmap'
      refine ⟨⟨(item.chunkX, item.chunkZ), item.res, s.nextCtrl⟩ :: new', ?_, ?_, ?_⟩
      · rw [hin']
        show s.inFlight ++ [⟨(item.chunkX, item.chunkZ), item.res, s.nextCtrl⟩] ++ new' = _
        rw [List.append_assoc, List.singleton_append]
      · rw [hm, List.take_succ_cons, List.map_cons, List.map_cons, hmap2]
      · rw [hq', hm, List.drop_succ_cons]
        show rest.drop (MAX_CONCURRENT_LOADS -
          (sadd ((item.chunkX, item.chunkZ) : Key) s.loadingChunks).length) = _
        rw [hlen1]
    · have hz : MAX_CONCURRENT_LOADS - s.loadingChunks.length = 0 :=
        Nat.sub_eq_zero_of_le (Nat.le_of_not_lt hl)
      have hstep : plqStep now s = none := by
        unfold plqStep
        rw [if_neg (fun hc => hl hc.1)]
      rw [processLoadQueue_none now fuel hstep, hz]
      exact ⟨[], (List.append_nil _).symm, by simp, by rw [hq, List.drop_zero]⟩

/-! ### The queue-key uniqueness invariant -/

lemma plqStep_qnodup {now : Nat} {s s' : MState} (h : plqStep now s = some s')
    (hn : (qKeys s.loadQueue).Nodup) : (qKeys s'.loadQueue).Nodup := by
  obtain ⟨item, rest, hq, hlen, hcase⟩ := plqStep_cases h
  rw [hq, qKeys, List.map_cons, List.nodup_cons] at hn
  rcases hcase with rfl | rfl | rfl
  · exact hn.2
  · show (qKeys (rest ++ [item])).Nodup
    have hperm : List.Perm (qKeys (rest ++ [item]))
        (((item.chunkX, item.chunkZ) : Key) :: qKeys rest) := by
      rw [qKeys, List.map_append]
      exact List.perm_append_singleton _ _
    rw [hperm.nodup_iff, List.nodup_cons]
    exact hn
  · rw [loadChunkStart_queue_eq]
    exact hn.2

lemma processLoadQueue_qnodup (now fuel : Nat) {s : MState}
    (hn : (qKeys s.loadQueue).Nodup) :
    (qKeys (processLoadQueue now fuel s).loadQueue).Nodup := by
  induction fuel generalizing s with
  | zero => exact hn
  | succ fuel ih =>
    cases h : plqStep now s with
    | none => rw [processLoadQueue_none now _ h]; exact hn
    | some s' => rw [processLoadQueue_some now _ h]; exact ih (plqStep_qnodup h hn)

lemma updateCell_qnodup (cameraChunkX cameraChunkZ : Int) (now : Nat) (x z : Int) (r : Nat)
    (s : MState) (enq : List Key) (hn : (qKeys s.loadQueue).Nodup) :
    (qKeys (updateCell cameraChunkX cameraChunkZ now x z r (s, enq)).1.loadQueue).Nodup := by
  obtain ⟨s1, ⟨_, _, _, _, _, _, e7, _, _⟩, hcase⟩ :=
    updateCell_shape cameraChunkX cameraChunkZ now x z r s enq
  rcases hcase with h | h <;> rw [h]
  · rw [e7]; exact hn
  · show (qKeys (enqueueChunkLoad x z cameraChunkX cameraChunkZ r s1.loadQueue)).Nodup
    rw [e7]
    exact enqueueChunkLoad_nodup hn

lemma fold_cells_qnodup (cells : List (Int × Int × Nat)) (cameraChunkX cameraChunkZ : Int)
    (now : Nat) (p : MState × List Key) (hn : (qKeys p.1.loadQueue).Nodup) :
    (qKeys (cells.foldl
      (fun p c => updateCell cameraChunkX cameraChunkZ now c.1 c.2.1 c.2.2 p) p).1.loadQueue).Nodup := by
  induction cells generalizing p with
  | nil => exact hn
  | cons c cs ih =>
    obtain ⟨s, enq⟩ := p
    rw [List.foldl_cons]
    exact ih _ (updateCell_qnodup cameraChunkX cameraChunkZ now c.1 c.2.1 c.2.2 s enq hn)

lemma fold_retry_qnodup (l : List (Key × Nat)) (retryRes : Key → Nat)
    (cameraChunkX cameraChunkZ : Int) (now : Nat) (p : MState × List Key)
    (hn : (qKeys p.1.loadQueue).Nodup) :
    (qKeys (l.foldl (fun (p : MState × List Key) kv =>
      let (st, enq) := p
      if now ≥ kv.2 ∧ kv.1 ∉ enq then
        ({ st with
            loadQueue := enqueueChunkLoad kv.1.1 kv.1.2 cameraChunkX cameraChunkZ
              (retryRes kv.1) st.loadQueue
            pendingRetryChunks := mdel kv.1 st.pendingRetryChunks },
          kv.1 :: enq)
      else p) p).1.loadQueue).Nodup := by
  induction l generalizing p with
  | nil => exact hn
  | cons kv t ih =>
    obtain ⟨s, enq⟩ := p
    rw [List.foldl_cons]
    dsimp only
    by_cases h : now ≥ kv.2 ∧ kv.1 ∉ enq
    · rw [if_pos h]
      exact ih _ (enqueueChunkLoad_nodup hn)
    · rw [if_neg h]
      exact ih (s, enq) hn

lemma fold_unload_queue (keys : List Key) (st : MState) :
    (keys.foldl (fun st k => unloadChunk k.1 k.2 st) st).loadQueue = st.loadQueue := by
  induction keys generalizing st with
  | nil => rfl
  | cons k ks ih => rw [List.foldl_cons, ih, unloadChunk_queue_eq]

lemma fold_unload_qnodup (keys : List Key) (st : MState)
    (hn : (qKeys st.loadQueue).Nodup) :
    (qKeys (keys.foldl (fun st k => unloadChunk k.1 k.2 st) st).loadQueue).Nodup := by
  rw [fold_unload_queue]
  exact hn

lemma update_qnodup (cells : List (Int × Int × Nat)) (retryRes : Key → Nat)
    (cameraChunkX cameraChunkZ : Int) (now fuel : Nat) (s : MState)
    (hn : (qKeys s.loadQueue).Nodup) :
    (qKeys (update cells retryRes cameraChunkX cameraChunkZ now fuel s).loadQueue).Nodup := by
  unfold update
  dsimp only
  exact processLoadQueue_qnodup now fuel
    (fold_unload_qnodup _ _
      (fold_retry_qnodup _ retryRes cameraChunkX cameraChunkZ now _
        (fold_cells_qnodup cells cameraChunkX cameraChunkZ now (s, []) hn)))

lemma loadChunkFinally_qnodup (key : Key) (now fuel : Nat) {s : MState}
    (hn : (qKeys s.loadQueue).Nodup) :
    (qKeys (loadChunkFinally key now fuel s).loadQueue).Nodup := by
  unfold loadChunkFinally
  exact processLoadQueue_qnodup now fuel hn

lemma loadChunkComplete_qnodup (f : Fetch) (o : FetchOutcome) (now fuel : Nat)
    (s : MState) (hn : (qKeys s.loadQueue).Nodup) :
    (qKeys (loadChunkComplete f o now fuel s).loadQueue).Nodup := by
  cases o with
  | notReady =>
    unfold loadChunkComplete
    dsimp only
    exact loadChunkFinally_qnodup _ now fuel (processLoadQueue_qnodup now fuel hn)
  | dataOk =>
    unfold loadChunkComplete
    dsimp only
    split_ifs with h
    · cases hm : mget f.key s.loadedChunks <;> exact loadChunkFinally_qnodup _ now fuel hn
    · exact loadChunkFinally_qnodup _ now fuel (processLoadQueue_qnodup now fuel hn)
  | dataBuildFail =>
    unfold loadChunkComplete
    dsimp only
    split_ifs with h
    · exact loadChunkFinally_qnodup _ now fuel hn
    · exact loadChunkFinally_qnodup _ now fuel (processLoadQueue_qnodup now fuel hn)
  | abortErr =>
    unfold loadChunkComplete
    dsimp only
    exact loadChunkFinally_qnodup _ now fuel hn
  | decodeErr =>
    unfold loadChunkComplete
    dsimp only
    exact loadChunkFinally_qnodup _ now fuel hn
  | netErr =>
    unfold loadChunkComplete
    dsimp only
    exact loadChunkFinally_qnodup _ now fuel hn

lemma destroy_qnodup (s : MState) : (qKeys (destroy s).loadQueue).Nodup := by
  unfold destroy
  dsimp only
  rw [fold_unload_queue]
  exact List.nodup_nil

lemma step_qnodup {now : Nat} {s s' : MState} (h : StepAt now s s')
    (hn : (qKeys s.loadQueue).Nodup) : (qKeys s'.loadQueue).Nodup := by
  cases h with
  | tick cells retryRes cameraChunkX cameraChunkZ fuel s =>
    exact update_qnodup cells retryRes cameraChunkX cameraChunkZ now fuel s hn
  | settle f o fuel s hf ho => exact loadChunkComplete_qnodup f o now fuel s hn
  | teardown s => exact destroy_qnodup s

/-! ### Claim theorems -/

/-- Claim C1: at every instant — in every state reachable by any sequence
of update ticks, fetch settlements, and teardowns — the number of in-flight
loads tracked by `loadingChunks` (the manager's `getLoadingCount()`) never
exceeds `MAX_CONCURRENT_LOADS` (20): the gate checks the budget before each
admission and each admission adds at most one key. -/
theorem C1_budget_invariant (s : MState) (h : Reachable s) :
    getLoadingCount s ≤ MAX_CONCURRENT_LOADS := by
  induction h with
  | refl => exact Nat.zero_le _
  | tail hr hstep ih =>
    obtain ⟨now, hst⟩ := hstep
    exact step_loading_le hst ih

/-- Witness for C1 at a concrete reachable state with a fetch in flight. -/
theorem C1_budget_invariant_witness :
    Reachable sA1 ∧ getLoadingCount sA1 ≤ MAX_CONCURRENT_LOADS :=
  ⟨reach_sA1, C1_budget_invariant sA1 reach_sA1⟩

/-- Claim C2: the claim says that for every chunk key at most one fetch is in
flight at any instant.  This fails on the code: in the reachable state `sA4`,
two fetches for key `(1,0)` are pending and neither of their controllers was
ever aborted.  The root cause is that the `finally` block of the cancelled
fetch's `loadChunk` (lines 345-351) deletes `loadingChunks` /
`loadingResolutions` / `abortControllers` entries by key, clobbering the
tracking of the replacement fetch (contradicting the comment on line 27:
"Track chunks currently being loaded to prevent duplicate requests"), after
which the next tick starts yet another fetch. -/
theorem C2_two_unaborted_fetches_one_key :
    Reachable sA4 ∧
    fA2 ∈ sA4.inFlight ∧ fA3 ∈ sA4.inFlight ∧ fA2 ≠ fA3 ∧
    fA2.key = fA3.key ∧
    fA2.ctrl ∉ sA4.aborted ∧ fA3.ctrl ∉ sA4.aborted :=
  ⟨reach_sA4, by decide, by decide, by decide, by decide, by decide, by decide⟩

/-- Claim C3: the claim says that after cancelling an in-flight fetch and
immediately re-requesting a different resolution, the tracking state of the
new fetch is not disturbed by the completion of the cancelled one.  This
fails on the code: in `sA2` the replacement fetch `fA2` is tracked
(`loadingChunks`, `loadingResolutions`, `abortControllers` all populated),
but after the cancelled fetch `fA1` settles with `AbortError` (state `sA3`)
all three entries for the key are gone while `fA2` is still pending and not
aborted — its eventual data will be discarded by the unloaded-while-waiting
check on line 296. -/
theorem C3_cancelled_completion_wipes_new_tracking :
    Reachable sA3 ∧
    fA2.key ∈ sA2.loadingChunks ∧ mget fA2.key sA2.loadingResolutions = some 64 ∧
    (mget fA2.key sA2.abortControllers = some fA2.ctrl) ∧
    fA2 ∈ sA3.inFlight ∧ fA2.ctrl ∉ sA3.aborted ∧
    fA2.key ∉ sA3.loadingChunks ∧
    mget fA2.key sA3.loadingResolutions = none ∧
    mget fA2.key sA3.abortControllers = none :=
  ⟨reach_sA3, by decide, by decide, by decide, by decide, by decide, by decide,
    by decide, by decide⟩

/-- Claim C4, counterexample: the claim says a blacklisted key is never
enqueued, fetched, or scheduled again for the process lifetime, even if it
is evicted and later re-enters the load radius.  This fails on the code:
`unloadChunk` deletes the key from `blacklistedChunks` (line 368), so the
blacklisted chunk `(1,0)` of trace B, evicted when the camera moves to chunk
`(20,0)`, is fetched again (`fB3`) when it re-enters the radius. -/
theorem C4_refetched_after_eviction :
    Reachable sB6 ∧
    ((1 : Int), (0 : Int)) ∈ sB4.blacklistedChunks ∧
    ((1 : Int), (0 : Int)) ∉ sB5.blacklistedChunks ∧
    fB3 ∈ sB6.inFlight ∧ fB3.key = (1, 0) :=
  ⟨reach_sB6, by decide, by decide, by decide, by decide⟩

/-- Claim C6, counterexample: the claim says that after `destroy()` returns,
the load queue, resident set, in-flight tracking, failure cooldowns, pending
retries and blacklist are all empty.  This fails on the code: `destroy`
clears `abortControllers`, `loadingResolutions` and the queue, and unloads
resident chunks, but per-key state of keys without a resident mesh survives —
in the reachable state `sE8 = destroy sE7`, `loadingChunks`, `failedChunks`,
`pendingRetryChunks` and `blacklistedChunks` are all non-empty. -/
theorem C6_residual_state_after_destroy :
    Reachable sE8 ∧
    sE8.loadingChunks ≠ [] ∧ sE8.failedChunks ≠ [] ∧
    sE8.pendingRetryChunks ≠ [] ∧ sE8.blacklistedChunks ≠ [] :=
  ⟨reach_sE8, by decide, by decide, by decide, by decide⟩

/-- Claim C4, amended: as long as a blacklisted key stays within the unload
radius (is not evicted), every tick keeps it blacklisted and starts no fetch
for it, and every fetch completion does the same; the flag is lost only
through eviction (see the counterexample). -/
theorem C4_blacklist_while_tracked :
    (∀ (cells : List (Int × Int × Nat)) (retryRes : Key → Nat)
        (cameraChunkX cameraChunkZ : Int) (now fuel : Nat) (s : MState) (k : Key),
      k ∈ s.blacklistedChunks →
      (k.1 - cameraChunkX).natAbs ≤ UNLOAD_RADIUS →
      (k.2 - cameraChunkZ).natAbs ≤ UNLOAD_RADIUS →
      k ∈ (update cells retryRes cameraChunkX cameraChunkZ now fuel s).blacklistedChunks ∧
        noNewFetchFor k s (update cells retryRes cameraChunkX cameraChunkZ now fuel s)) ∧
    (∀ (f : Fetch) (o : FetchOutcome) (now fuel : Nat) (s : MState) (k : Key),
      k ∈ s.blacklistedChunks →
      k ∈ (loadChunkComplete f o now fuel s).blacklistedChunks ∧
        noNewFetchFor k s (loadChunkComplete f o now fuel s)) :=
  ⟨fun cells retryRes cameraChunkX cameraChunkZ now fuel s k hm hx hz =>
    ⟨(update_blocked cells retryRes cameraChunkX cameraChunkZ fuel s (Or.inl hm) hx hz).2.2 hm,
      (update_blocked cells retryRes cameraChunkX cameraChunkZ fuel s (Or.inl hm) hx hz).2.1⟩,
   fun f o now fuel s k hm =>
    ⟨loadChunkComplete_blacklist_mem f o now fuel s hm,
      (loadChunkComplete_blocked f o fuel s (Or.inl hm)).2⟩⟩

/-- Witness for C4's amended theorem: in the trace-B state `sB4` the chunk
`(1,0)` is blacklisted and within radius of the camera chunk `(0,0)`; a tick
re-sweeping it keeps the flag and starts no fetch. -/
theorem C4_blacklist_while_tracked_witness :
    ((1 : Int), (0 : Int)) ∈ (update [(1, 0, 64)] (fun _ => 64) 0 0 40 5 sB4).blacklistedChunks ∧
    noNewFetchFor (1, 0) sB4 (update [(1, 0, 64)] (fun _ => 64) 0 0 40 5 sB4) :=
  C4_blacklist_while_tracked.1 [(1, 0, 64)] (fun _ => 64) 0 0 40 5 sB4 (1, 0)
    (by decide) (by decide) (by decide)

/-- Claim C8, amended: while a key's `failedUntil` cooldown is unexpired, a
tick that does not evict the key starts no fetch for it, and no fetch
completion starts one either; and a completion with a network error sets
`failedUntil` to its own time plus `FAILED_CHUNK_COOLDOWN_MS` — overwriting
any earlier value, so the cooldown is always measured from the last error. -/
theorem C8_cooldown_blocks_fetch :
    (∀ (cells : List (Int × Int × Nat)) (retryRes : Key → Nat)
        (cameraChunkX cameraChunkZ : Int) (now fuel : Nat) (s : MState) (k : Key),
      timeActive now (mget k s.failedChunks) = true →
      (k.1 - cameraChunkX).natAbs ≤ UNLOAD_RADIUS →
      (k.2 - cameraChunkZ).natAbs ≤ UNLOAD_RADIUS →
      noNewFetchFor k s (update cells retryRes cameraChunkX cameraChunkZ now fuel s)) ∧
    (∀ (f : Fetch) (o : FetchOutcome) (now fuel : Nat) (s : MState) (k : Key),
      timeActive now (mget k s.failedChunks) = true →
      noNewFetchFor k s (loadChunkComplete f o now fuel s)) ∧
    (∀ (f : Fetch) (now fuel : Nat) (s : MState),
      mget f.key (loadChunkComplete f .netErr now fuel s).failedChunks =
        some (now + FAILED_CHUNK_COOLDOWN_MS)) := by
  refine ⟨fun cells retryRes cameraChunkX cameraChunkZ now fuel s k ha hx hz =>
      (update_blocked cells retryRes cameraChunkX cameraChunkZ fuel s (Or.inr ha) hx hz).2.1,
    fun f o now fuel s k ha => (loadChunkComplete_blocked f o fuel s (Or.inr ha)).2,
    fun f now fuel s => ?_⟩
  unfold loadChunkComplete loadChunkFinally
  dsimp only
  refine (processLoadQueue_failed_eq fuel ?_).trans ?_
  · show timeActive now
      (mget f.key (mset f.key (now + FAILED_CHUNK_COOLDOWN_MS) s.failedChunks)) = true
    rw [mget_mset_self]
    show decide (now < now + FAILED_CHUNK_COOLDOWN_MS) = true
    rw [decide_eq_true_eq, FAILED_CHUNK_COOLDOWN_MS]
    omega
  · exact mget_mset_self _ _ _

/-- Witness for C8's amended theorem: in the trace-C state `sC4` the chunk
`(1,0)` has a cooldown until 6000; a tick at t=2000 starts no fetch for it,
and the network-error completion that produced `sC4` wrote exactly
1000 + `FAILED_CHUNK_COOLDOWN_MS`. -/
theorem C8_cooldown_blocks_fetch_witness :
    noNewFetchFor (1, 0) sC4 (update [(1, 0, 64)] (fun _ => 64) 0 0 2000 5 sC4) ∧
    mget fC2.key (loadChunkComplete fC2 .netErr 1000 5 sC3).failedChunks = some 6000 :=
  ⟨C8_cooldown_blocks_fetch.1 [(1, 0, 64)] (fun _ => 64) 0 0 2000 5 sC4 (1, 0)
      (by decide) (by decide) (by decide),
    C8_cooldown_blocks_fetch.2.2 fC2 1000 5 sC3⟩

/-- Claim C5: the claim says that on dequeuing an entry under an unexpired
cooldown, the gate pushes it back to the tail and stops the pass, admitting
no further entries in that invocation, so that it never busy-loops over
cooled-down entries.  This fails on the code: line 225 is `continue`, not a
`break`.  In the reachable tick `sD5` (trace D, t=2000) the head entry
`(1,0)` is under cooldown until 6000: the first iteration pushes it back
(`sD5 1` shows it behind the admissible `(2,0)` entry), the second admits
`(2,0)` into flight (`fD3`) in the same invocation — and from then on the
loop state is the fixed point `tD`, in which the loop guard (budget below
`MAX_CONCURRENT_LOADS`, queue non-empty) and the cooldown still hold, so the
`while` loop re-examines the cooled entry for ever (a busy-wait until
`Date.now()` passes the cooldown). -/
theorem C5_cooldown_requeue_continues_pass :
    Reachable (sD5 2) ∧
    (sD5 1).loadQueue = [⟨2, 0, 4, 128⟩, ⟨1, 0, 1, 64⟩] ∧ fD3 ∉ (sD5 1).inFlight ∧
    fD3 ∈ (sD5 2).inFlight ∧
    (∀ n, sD5 (2 + n) = sD5 2) ∧
    (sD5 2).loadQueue = [⟨1, 0, 1, 64⟩] ∧
    timeActive 2000 (mget (1, 0) (sD5 2).failedChunks) = true ∧
    getLoadingCount (sD5 2) < MAX_CONCURRENT_LOADS :=
  ⟨reach_sD5 2, by decide, by decide, by decide,
    fun n => by
      rw [show sD5 (2 + n) = processLoadQueue 2000 n (sD5 2) from
        update_fuel_add _ _ _ _ _ 2 n sD4, sD5_two, processLoadQueue_tD n],
    by decide, by decide, by decide⟩

/-- Claim C6, amended: `destroy()` aborts every in-flight request's
controller, clears `abortControllers`, `loadingResolutions` and the load
queue, and unloads every resident chunk (so the resident set is empty); but
it does not clear the per-key state of keys without a resident mesh — see
the counterexample for what survives. -/
theorem C6_destroy_scope (s : MState) :
    (destroy s).abortControllers = [] ∧
    (destroy s).loadingResolutions = [] ∧
    (destroy s).loadQueue = [] ∧
    (destroy s).loadedChunks = [] ∧
    ∀ kc ∈ s.abortControllers, kc.2 ∈ (destroy s).aborted := by
  unfold destroy
  refine ⟨fold_unload_ac_nil _ _ rfl, fold_unload_lr_nil _ _ rfl,
    (fold_unload_queue _ _).trans rfl, ?_, ?_⟩
  · exact fold_unload_loaded_empty _ _ fun p hp => List.mem_map.mpr ⟨p, hp, rfl⟩
  · intro kc hkc
    exact fold_unload_aborted _ _
      (List.mem_append.mpr (Or.inr (List.mem_map.mpr ⟨kc, hkc, rfl⟩)))

/-- Witness for C6's amended theorem at the concrete trace-E state: after
`destroy sE7` the resident set is empty and the in-flight controller `1`
(of the pending fetch for `(0,1)`) has been aborted. -/
theorem C6_destroy_scope_witness :
    (destroy sE7).loadedChunks = [] ∧
    (((0 : Int), (1 : Int)), (1 : Nat)) ∈ sE7.abortControllers ∧
    (1 : Nat) ∈ (destroy sE7).aborted :=
  ⟨(C6_destroy_scope sE7).2.2.2.1, by decide,
    (C6_destroy_scope sE7).2.2.2.2 ((0, 1), 1) (by decide)⟩

/-- Claim C7: queued requests are admitted into flight strictly in
ascending priority order (priority = squared chunk-grid distance), subject
to the concurrency budget.  Two facts: (i) `enqueueChunkLoad` preserves the
ascending-`distanceSquared` sorting of the queue whatever the insertion
order, so the queue — empty at construction — is always sorted; (ii) on a
sorted queue of admissible entries the gate appends to `inFlight` exactly
the first `MAX_CONCURRENT_LOADS - loadingChunks.size` queue entries, in
queue order (hence ascending priority, FIFO among equal priorities since
`insertByDistance` inserts after equals), and removes exactly those from
the queue. -/
theorem C7_priority_admission_order :
    (∀ (x z cameraChunkX cameraChunkZ : Int) (res : Nat) (q : List QItem),
      q.Pairwise (fun a b => a.distanceSquared ≤ b.distanceSquared) →
      (enqueueChunkLoad x z cameraChunkX cameraChunkZ res q).Pairwise
        (fun a b => a.distanceSquared ≤ b.distanceSquared)) ∧
    (∀ (now fuel : Nat) (s : MState),
      (∀ it ∈ s.loadQueue, admissible now s it) →
      (qKeys s.loadQueue).Nodup →
      s.loadQueue.length ≤ fuel →
      ∃ new : List Fetch,
        (processLoadQueue now fuel s).inFlight = s.inFlight ++ new ∧
        new.map (fun fe => (fe.key, fe.res)) =
          (s.loadQueue.take (MAX_CONCURRENT_LOADS - s.loadingChunks.length)).map
            (fun it => (((it.chunkX, it.chunkZ) : Key), it.res)) ∧
        (processLoadQueue now fuel s).loadQueue =
          s.loadQueue.drop (MAX_CONCURRENT_LOADS - s.loadingChunks.length)) :=
  ⟨fun _ _ _ _ _ _ hs => enqueueChunkLoad_sorted hs,
   fun now fuel s h1 h2 h3 => processLoadQueue_admission now s.loadQueue fuel s rfl h1 h2 h3⟩

/-- Witness for C7 at the spec's example: enqueueing priority 4 into the
sorted queue `[prio 1, prio 9]` keeps it sorted, and a pass over `sG` — the
three pending requests at priorities 1, 4, 9 with an empty in-flight set —
admits exactly those three fetches in that order. -/
theorem C7_priority_admission_order_witness :
    ((enqueueChunkLoad 2 0 0 0 128 [⟨1, 0, 1, 128⟩, ⟨3, 0, 9, 128⟩]).Pairwise
      (fun a b => a.distanceSquared ≤ b.distanceSquared)) ∧
    ∃ new : List Fetch,
      (processLoadQueue 0 3 sG).inFlight = sG.inFlight ++ new ∧
      new.map (fun fe => (fe.key, fe.res)) =
        (sG.loadQueue.take (MAX_CONCURRENT_LOADS - sG.loadingChunks.length)).map
          (fun it => (((it.chunkX, it.chunkZ) : Key), it.res)) ∧
      (processLoadQueue 0 3 sG).loadQueue =
        sG.loadQueue.drop (MAX_CONCURRENT_LOADS - sG.loadingChunks.length) :=
  ⟨C7_priority_admission_order.1 2 0 0 0 128 [⟨1, 0, 1, 128⟩, ⟨3, 0, 9, 128⟩] (by decide),
   C7_priority_admission_order.2 0 3 sG
     (by
       intro it hit
       have h3 : it ∈ ([⟨1, 0, 1, 128⟩, ⟨2, 0, 4, 128⟩, ⟨3, 0, 9, 128⟩] : List QItem) := hit
       fin_cases h3 <;> exact ⟨by decide, by decide, by decide, by decide, by decide⟩)
     (by decide) (by decide)⟩

/-- Claim C8, counterexample: the claim says that after a hard network error
for a key, no new fetch for that key starts before
`FAILED_CHUNK_COOLDOWN_MS` has elapsed since the error.  This fails on the
code when the key is evicted in between: the network error at t=1000 sets a
cooldown until 6000 (`sC4`), eviction at t=1001 deletes the `failedChunks`
entry (line 367), and the tick at t=1002 — still inside the cooldown window —
starts a new fetch `fC3` for the key. -/
theorem C8_cooldown_lost_on_eviction :
    Reachable sC6 ∧
    mget (1, 0) sC4.failedChunks = some 6000 ∧
    mget (1, 0) sC5.failedChunks = none ∧
    fC3 ∉ sC5.inFlight ∧ fC3 ∈ sC6.inFlight ∧ fC3.key = (1, 0) ∧
    (1002 : Nat) < 6000 :=
  ⟨reach_sC6, by decide, by decide, by decide, by decide, by decide, by decide⟩

/-- Claim C9: enqueueing a chunk whose queue entry already has the same
resolution and the same priority (squared camera distance) is a no-op that
leaves the queue unchanged; if resolution or priority differs, the existing
entry for that key is replaced — afterwards the key's entries are exactly
the one new entry while all other entries are untouched, in order; and in
every reachable state each key appears at most once in the queue. -/
theorem C9_enqueue_idempotent_replace :
    (∀ (x z cameraChunkX cameraChunkZ : Int) (res : Nat) (q : List QItem),
      (qKeys q).Nodup →
      (⟨x, z, calculateChunkDistance cameraChunkX cameraChunkZ x z, res⟩ : QItem) ∈ q →
      enqueueChunkLoad x z cameraChunkX cameraChunkZ res q = q) ∧
    (∀ (x z cameraChunkX cameraChunkZ : Int) (res : Nat) (q : List QItem) (ex : QItem),
      (qKeys q).Nodup → ex ∈ q → ex.chunkX = x → ex.chunkZ = z →
      ¬(ex.res = res ∧
        ex.distanceSquared = calculateChunkDistance cameraChunkX cameraChunkZ x z) →
      (enqueueChunkLoad x z cameraChunkX cameraChunkZ res q).filter
          (fun it => decide (it.chunkX = x ∧ it.chunkZ = z)) =
        [⟨x, z, calculateChunkDistance cameraChunkX cameraChunkZ x z, res⟩] ∧
      (enqueueChunkLoad x z cameraChunkX cameraChunkZ res q).filter
          (fun it => decide ¬(it.chunkX = x ∧ it.chunkZ = z)) =
        q.filter (fun it => decide ¬(it.chunkX = x ∧ it.chunkZ = z))) ∧
    (∀ s : MState, Reachable s → (qKeys s.loadQueue).Nodup) := by
  refine ⟨?_, ?_, ?_⟩
  · intro x z cameraChunkX cameraChunkZ res q hn hm
    unfold enqueueChunkLoad
    dsimp only
    rw [removeQueued_of_mem_nodup hn hm rfl rfl]
    dsimp only
    rw [if_pos ⟨rfl, rfl⟩]
  · intro x z cameraChunkX cameraChunkZ res q ex hn hm hx hz hdiff
    unfold enqueueChunkLoad
    dsimp only
    rw [removeQueued_of_mem_nodup hn hm hx hz]
    dsimp only
    rw [if_neg hdiff]
    constructor
    · refine insertByDistance_filter_of_pos (by simp) ?_
      exact List.filter_eq_nil.mp (removeQueued_filters hn).2
    · rw [insertByDistance_filter_of_neg (by simp)]
      exact (removeQueued_filters hn).1
  · intro s h
    induction h with
    | refl => exact List.nodup_nil
    | tail hr hstep ih =>
      obtain ⟨now, hst⟩ := hstep
      exact step_qnodup hst ih

/-- Witness for C9: re-enqueueing `(1,0)` with unchanged resolution and
priority is the identity; re-enqueueing it at a different resolution
replaces its entry and leaves the `(2,0)` entry alone; and the reachable
state `sA1` has duplicate-free queue keys. -/
theorem C9_enqueue_idempotent_replace_witness :
    enqueueChunkLoad 1 0 0 0 64 [⟨1, 0, 1, 64⟩] = [⟨1, 0, 1, 64⟩] ∧
    ((enqueueChunkLoad 1 0 0 0 64 [⟨1, 0, 1, 128⟩, ⟨2, 0, 4, 64⟩]).filter
        (fun it => decide (it.chunkX = 1 ∧ it.chunkZ = 0)) = [⟨1, 0, 1, 64⟩] ∧
      (enqueueChunkLoad 1 0 0 0 64 [⟨1, 0, 1, 128⟩, ⟨2, 0, 4, 64⟩]).filter
        (fun it => decide ¬(it.chunkX = 1 ∧ it.chunkZ = 0)) =
        ([⟨1, 0, 1, 128⟩, ⟨2, 0, 4, 64⟩] : List QItem).filter
          (fun it => decide ¬(it.chunkX = 1 ∧ it.chunkZ = 0))) ∧
    (qKeys sA1.loadQueue).Nodup :=
  ⟨C9_enqueue_idempotent_replace.1 1 0 0 0 64 [⟨1, 0, 1, 64⟩] (by decide) (by decide),
    C9_enqueue_idempotent_replace.2.1 1 0 0 0 64 [⟨1, 0, 1, 128⟩, ⟨2, 0, 4, 64⟩]
      ⟨1, 0, 1, 128⟩ (by decide) (by decide) rfl rfl (by decide),
    C9_enqueue_idempotent_replace.2.2 sA1 reach_sA1⟩

/-- Claim C10: unloading is idempotent — `unloadChunk` applied twice to the
same key equals applying it once, and for a key that is not tracked anywhere
(never tracked, or already unloaded) `unloadChunk` is a no-op, leaving the
whole state — resident set, load queue, every tracking map, and the scene —
unchanged. -/
theorem C10_unload_idempotent :
    (∀ (x z : Int) (s : MState), unloadChunk x z (unloadChunk x z s) = unloadChunk x z s) ∧
    (∀ (x z : Int) (s : MState),
      mget (x, z) s.abortControllers = none → (x, z) ∉ s.loadingChunks →
      mget (x, z) s.pendingRetryChunks = none → mget (x, z) s.failedChunks = none →
      (x, z) ∉ s.blacklistedChunks → mget (x, z) s.loadingResolutions = none →
      mget (x, z) s.loadedChunks = none → unloadChunk x z s = s) :=
  ⟨fun x z s => by
    obtain ⟨a1, a2, a3, a4, a5, a6, a7⟩ := unloadChunk_cleared x z s
    exact unloadChunk_noop x z _ a1 a2 a3 a4 a5 a6 a7,
   fun x z s h1 h2 h3 h4 h5 h6 h7 => unloadChunk_noop x z s h1 h2 h3 h4 h5 h6 h7⟩

/-- Witness for C10 at concrete inputs: unloading the never-tracked chunk
`(3,4)` of a freshly constructed manager is a no-op, and re-unloading
`(1,0)` after it was unloaded from the trace-B state `sB2` changes
nothing. -/
theorem C10_witness :
    unloadChunk 3 4 initState = initState ∧
    unloadChunk 1 0 (unloadChunk 1 0 sB2) = unloadChunk 1 0 sB2 :=
  ⟨C10_unload_idempotent.2 3 4 initState rfl (by decide) rfl rfl (by decide) rfl rfl,
   C10_unload_idempotent.1 1 0 sB2⟩

end WorldClient
